import Mathlib

/-!
# LED strip driver, scheduler and tuning state machines (`main.c`)

A shallow embedding of `main.c`:

* the bit-banged protocol encoder `led_strip_write`, modelled at the level of
  the AVR instructions of its inline assembly, with a cycle counter and a log
  of the observable events (line edges, `cli`, `sei`, `_delay_us`);
* the threshold tuning state machine `ChangeMax`;
* the indicator state machine `TuneSM`;
* the millisecond scheduler (`TimerSet`, the handler `ISR(TIMER1_COMPA_vect)`,
  `TimerFlag`), with 32-bit unsigned counters;
* the animation burst of `main`, driven by what each test of `TimerFlag` sees.

Cycle costs: `sbi`/`cbi` 2, `rol`/`nop` 1, a conditional branch 1 when not taken
and 2 when taken, `rcall` 3, `ret` 4, `ld` and `rjmp` 2. A line edge is stamped
with the cycle count at the end of the `sbi` or `cbi` that causes it.
-/

namespace LedStrip

/-! ## Protocol encoder: data model -/

/-- The `rgb_color` struct: three `unsigned char` channels, laid out in memory
in the order red, green, blue. -/
structure rgb_color where
  red : Nat
  green : Nat
  blue : Nat
deriving DecidableEq, Repr

/-- The three values of `F_CPU` the source accepts; every other value stops the
build at `#error "Unsupported F_CPU"`. -/
inductive Clock where
  | f8MHz
  | f16MHz
  | f20MHz
deriving DecidableEq, Repr

/-- Clock frequency in Hz. -/
def Clock.hz : Clock → Nat
  | .f8MHz => 8000000
  | .f16MHz => 16000000
  | .f20MHz => 20000000

/-- The configured clock: `#define F_CPU 8000000`. -/
def F_CPU : Clock := Clock.f8MHz

/-- `#define LED_COUNT 60`. -/
def LED_COUNT : Nat := 60

/-- Observable events of the encoder. Line edges carry the value of the cycle
counter at the end of the instruction that drives the pin. -/
inductive Ev where
  | cli
  | sei
  | high (t : Nat)
  | low (t : Nat)
  | delay_us (n : Nat)
deriving DecidableEq, Repr

/-- Machine state seen by `led_strip_write`: data memory holding the colors
array, the pointer register `%a0`, `__tmp_reg__`, the carry flag, the global
interrupt enable bit, the data-direction bit and level of the strip pin, the
count of cycles spent in the assembly instructions, and the event log. -/
structure Avr where
  mem : List Nat
  ptr : Nat
  tmp : Nat
  carry : Bool
  iflag : Bool
  ddr : Bool
  line : Bool
  cycles : Nat
  trace : List Ev
deriving DecidableEq, Repr

/-- Bytes of a colors array as they lie in memory. -/
def layout : List rgb_color → List Nat
  | [] => []
  | c :: cs => c.red % 256 :: c.green % 256 :: c.blue % 256 :: layout cs

/-- One byte read from data memory. -/
def Avr.load (s : Avr) (a : Nat) : Nat := s.mem.getD a 0 % 256

/-! ## Protocol encoder: instructions -/

/-- Spend `n` cycles. -/
def tick (n : Nat) (s : Avr) : Avr := { s with cycles := s.cycles + n }

/-- The instruction `ld __tmp_reg__, %a0+`: load, then increment the pointer. -/
def ld_postinc (s : Avr) : Avr :=
  { s with tmp := s.load s.ptr, ptr := s.ptr + 1, cycles := s.cycles + 2 }

/-- The instruction `ld __tmp_reg__, %a0`: load, pointer unchanged. -/
def ld_plain (s : Avr) : Avr :=
  { s with tmp := s.load s.ptr, cycles := s.cycles + 2 }

/-- The instruction `ld __tmp_reg__, -%a0`: decrement the pointer, then load. -/
def ld_predec (s : Avr) : Avr :=
  { s with tmp := s.load (s.ptr - 1), ptr := s.ptr - 1, cycles := s.cycles + 2 }

/-- The instruction `rol __tmp_reg__`: rotate left through carry. -/
def rol (s : Avr) : Avr :=
  { s with
    tmp := (2 * s.tmp + (if s.carry then 1 else 0)) % 256
    carry := decide (s.tmp / 128 % 2 = 1)
    cycles := s.cycles + 1 }

/-- The instruction `sbi %2, %3`: drive the line high. -/
def sbi (s : Avr) : Avr :=
  { s with line := true, cycles := s.cycles + 2, trace := s.trace ++ [Ev.high (s.cycles + 2)] }

/-- The instruction `cbi %2, %3`: drive the line low. -/
def cbi (s : Avr) : Avr :=
  { s with line := false, cycles := s.cycles + 2, trace := s.trace ++ [Ev.low (s.cycles + 2)] }

/-- A run of `n` `nop` instructions. -/
def nops (n : Nat) (s : Avr) : Avr := tick n s

/-- The pair `brcs .+2` / `instr`: the branch skips `instr` when carry is set
(2 cycles taken, 1 cycle not taken). -/
def brcs_skip (instr : Avr → Avr) (s : Avr) : Avr :=
  if s.carry then tick 2 s else instr (tick 1 s)

/-- The pair `brcc .+2` / `instr`: the branch skips `instr` when carry is clear. -/
def brcc_skip (instr : Avr → Avr) (s : Avr) : Avr :=
  if s.carry then instr (tick 1 s) else tick 2 s

/-- The instruction `rcall`: 3 cycles, then the subroutine body (which ends in `ret`). -/
def rcall (body : Avr → Avr) (s : Avr) : Avr := body (tick 3 s)

/-- The instruction `ret`. -/
def ret (s : Avr) : Avr := tick 4 s

/-- The instruction `rjmp`. -/
def rjmp (s : Avr) : Avr := tick 2 s

/-- Instruction `cli`. -/
def cli (s : Avr) : Avr := { s with iflag := false, trace := s.trace ++ [Ev.cli] }

/-- Instruction `sei`. -/
def sei (s : Avr) : Avr := { s with iflag := true, trace := s.trace ++ [Ev.sei] }

/-- The busy wait `_delay_us(n)`. -/
def _delay_us (n : Nat) (s : Avr) : Avr := { s with trace := s.trace ++ [Ev.delay_us n] }

/-! ## Protocol encoder: subroutines -/

/-- The subroutine `send_led_strip_bit`, with the `#if F_CPU` selections. -/
def send_led_strip_bit (clk : Clock) (s : Avr) : Avr :=
  let s := if clk = Clock.f8MHz then rol s else s
  let s := sbi s
  let s := if clk ≠ Clock.f8MHz then rol s else s
  let s := match clk with
    | .f16MHz => nops 2 s
    | .f20MHz => nops 4 s
    | .f8MHz => s
  let s := brcs_skip cbi s
  let s := match clk with
    | .f8MHz => nops 2 s
    | .f16MHz => nops 5 s
    | .f20MHz => nops 7 s
  let s := brcc_skip cbi s
  ret s

/-- The subroutine `send_led_strip_byte`: eight calls of `send_led_strip_bit`. -/
def send_led_strip_byte (clk : Clock) (s : Avr) : Avr :=
  let s := rcall (send_led_strip_bit clk) s
  let s := rcall (send_led_strip_bit clk) s
  let s := rcall (send_led_strip_bit clk) s
  let s := rcall (send_led_strip_bit clk) s
  let s := rcall (send_led_strip_bit clk) s
  let s := rcall (send_led_strip_bit clk) s
  let s := rcall (send_led_strip_bit clk) s
  let s := rcall (send_led_strip_bit clk) s
  ret s

/-- The body of the `while(count--)` loop: the `asm volatile` block up to the
`rjmp led_strip_asm_end`. -/
def send_color (clk : Clock) (s : Avr) : Avr :=
  let s := ld_postinc s
  let s := ld_plain s
  let s := rcall (send_led_strip_byte clk) s
  let s := ld_predec s
  let s := rcall (send_led_strip_byte clk) s
  let s := ld_postinc s
  let s := ld_postinc s
  let s := ld_postinc s
  let s := rcall (send_led_strip_byte clk) s
  rjmp s

/-- The loop `while(count--) { ... }`. -/
def send_colors (clk : Clock) : Nat → Avr → Avr
  | 0, s => s
  | n + 1, s => send_colors clk n (send_color clk s)

/-- The function `led_strip_write(colors, count)`; the `colors` argument is the
pointer register of the state. The write `LED_STRIP_PORT &= ~(1<<LED_STRIP_PIN)`
clears the port bit like `cbi`, the write to `LED_STRIP_DDR` sets the direction
bit. The loop body does not read `count`, so the loop runs `count` times (an
`unsigned int` argument is below 65536). -/
def led_strip_write (clk : Clock) (count : Nat) (s : Avr) : Avr :=
  let s := cbi s
  let s := { s with ddr := true }
  let s := cli s
  let s := send_colors clk count s
  let s := sei s
  _delay_us 80 s

/-- A machine state at a call `led_strip_write(colors, count)`: the array `cs`
lies in memory, the pointer register holds its address, the event log is
empty; every other register is as in `s0`. -/
def Avr.atCall (s0 : Avr) (cs : List rgb_color) : Avr :=
  { s0 with mem := layout cs, ptr := 0, trace := [] }

/-- An idle machine: pin configured as output driving low, interrupts enabled. -/
def idle : Avr :=
  { mem := [], ptr := 0, tmp := 0, carry := false, iflag := true, ddr := true,
    line := false, cycles := 0, trace := [] }

/-! ## Protocol encoder: reading the waveform -/

/-- Bits of a byte, most significant first. -/
def byteBits (v : Nat) : List Bool :=
  [7, 6, 5, 4, 3, 2, 1, 0].map fun i => decide (v / 2 ^ i % 2 = 1)

/-- Bit value carried by a pulse that stays high for `w` cycles: the doc comment
of `led_strip_write` gives 400 ns for a 0 and 850 ns for a 1; a pulse longer
than the midpoint 625 ns reads as 1. -/
def isOne (clk : Clock) (w : Nat) : Bool := decide (625 * clk.hz < w * 1000000000)

/-- Reads a stretch of the event log as a sequence of pulses (a rising edge
directly followed by a falling edge) and returns their high times in cycles;
`none` when the stretch holds anything else. -/
def pulseWidths : List Ev → Option (List Nat)
  | [] => some []
  | Ev.high a :: Ev.low b :: es => (pulseWidths es).map fun ws => (b - a) :: ws
  | _ => none

/-- Bit values of a stretch of the event log that consists of pulses only. -/
def decode (clk : Clock) (es : List Ev) : Option (List Bool) :=
  (pulseWidths es).map fun ws => ws.map (isOne clk)

/-- Bits of a color in struct order: red, green, blue. -/
def rgbBits (c : rgb_color) : List Bool :=
  byteBits (c.red % 256) ++ byteBits (c.green % 256) ++ byteBits (c.blue % 256)

/-- Bits of a color in the order green, red, blue. -/
def grbBits (c : rgb_color) : List Bool :=
  byteBits (c.green % 256) ++ byteBits (c.red % 256) ++ byteBits (c.blue % 256)

/-- Bit stream of one call: the pulses between `cli` and `sei`. -/
def bitStream (clk : Clock) (t : List Ev) : Option (List Bool) :=
  match t with
  | Ev.low _ :: Ev.cli :: rest => decode clk (rest.takeWhile fun e => e ≠ Ev.sei)
  | _ => none

/-- Cycles from the entry of `send_led_strip_bit` to the rising edge. -/
def riseAt : Clock → Nat
  | .f8MHz => 3
  | .f16MHz => 2
  | .f20MHz => 2

/-- Cycles the line stays high for a bit value. -/
def highCycles : Clock → Bool → Nat
  | .f8MHz, false => 3
  | .f8MHz, true => 7
  | .f16MHz, false => 6
  | .f16MHz, true => 13
  | .f20MHz, false => 8
  | .f20MHz, true => 17

/-- Cycles spent in `send_led_strip_bit`, its `ret` included. -/
def bitCycles : Clock → Nat
  | .f8MHz => 14
  | .f16MHz => 19
  | .f20MHz => 23

/-- Most significant bit of a byte. -/
def msb (v : Nat) : Bool := decide (v / 128 % 2 = 1)

/-- Value of `__tmp_reg__` after `rol`, from its value and the carry before. -/
def rolTmp (t : Nat) (c : Bool) : Nat := (2 * t + (if c then 1 else 0)) % 256

/-- Carry values produced by `n` successive `rol` instructions. -/
def rolBits : Nat → Nat → Bool → List Bool
  | 0, _, _ => []
  | n + 1, t, c => msb t :: rolBits n (rolTmp t c) (msb t)

/-- A run of `n` instructions `rcall send_led_strip_bit`. -/
def sendBits (clk : Clock) : Nat → Avr → Avr
  | 0, s => s
  | n + 1, s => sendBits clk n (rcall (send_led_strip_bit clk) s)

/-- Bits on the wire for a colors array, as the loads of `send_color` order them. -/
def wireBits : List rgb_color → List Bool
  | [] => []
  | c :: cs => grbBits c ++ wireBits cs

/-- Bits of a colors array with every color in struct order red, green, blue. -/
def structBits : List rgb_color → List Bool
  | [] => []
  | c :: cs => rgbBits c ++ structBits cs

/-! ## Globals and the two state machines -/

/-- The type `enum States{start1, hold, add, sub, wait}`. -/
inductive States where
  | start1
  | hold
  | add
  | sub
  | wait
deriving DecidableEq, Repr

/-- The type `enum tuneStates{start2, off, on}`. -/
inductive tuneStates where
  | start2
  | off
  | on
deriving DecidableEq, Repr

/-- The global variables of `main.c` that the state machines read and write:
`ADC_num` and `max` are `unsigned short`, the others `unsigned char`. -/
structure Globals where
  ADC_num : Nat
  tmpC : Nat
  B0 : Nat
  B1 : Nat
  max : Nat
  tuneFlag : Nat
  LEDFlag : Nat
  state1 : States
  state2 : tuneStates
deriving DecidableEq, Repr

/-- The globals as their initializers leave them; the two state variables have
no initializer and start at their first enumerator. -/
def Globals.init : Globals :=
  { ADC_num := 0, tmpC := 0xFF, B0 := 0, B1 := 0, max := 400, tuneFlag := 0,
    LEDFlag := 0, state1 := States.start1, state2 := tuneStates.start2 }

/-- The function `ChangeMax`. The `default` branch of the switch is not
reachable for a value of the enum. -/
def ChangeMax (g : Globals) : Globals :=
  match g.state1 with
  | .start1 => { g with max := 400, tuneFlag := 0, state1 := States.hold }
  | .hold =>
    if g.B0 ≠ 0 ∧ ¬ g.B1 ≠ 0 ∧ g.max < 470 then { g with state1 := States.add }
    else if ¬ g.B0 ≠ 0 ∧ g.B1 ≠ 0 ∧ g.max > 400 then { g with state1 := States.sub }
    else { g with state1 := States.hold }
  | .add =>
    { g with
      max := (g.max + 10) % 65536
      tuneFlag := (g.tuneFlag + 1) % 256
      state1 := States.wait }
  | .sub =>
    { g with
      max := (g.max + 65536 - 10) % 65536
      tuneFlag := (g.tuneFlag + 256 - 1) % 256
      state1 := States.wait }
  | .wait =>
    if ¬ g.B0 ≠ 0 ∧ ¬ g.B1 ≠ 0 then { g with state1 := States.hold }
    else { g with state1 := States.wait }

/-- The if-chain of case `on` that picks `tmpC` from `tuneFlag`. -/
def pickPattern (g : Globals) : Globals :=
  if g.tuneFlag = 0x00 then { g with tmpC := 0x7F }
  else if g.tuneFlag = 0x01 then { g with tmpC := 0xBF }
  else if g.tuneFlag = 0x02 then { g with tmpC := 0xDF }
  else if g.tuneFlag = 0x03 then { g with tmpC := 0xEF }
  else if g.tuneFlag = 0x04 then { g with tmpC := 0xF7 }
  else if g.tuneFlag = 0x05 then { g with tmpC := 0xFB }
  else if g.tuneFlag = 0x06 then { g with tmpC := 0xFD }
  else if g.tuneFlag = 0x07 then { g with tmpC := 0xFE }
  else g

/-- The comparison that ends cases `off` and `on`. -/
def compareSample (g : Globals) : Globals :=
  if g.ADC_num ≥ g.max then { g with state2 := tuneStates.on }
  else if g.ADC_num < g.max then { g with state2 := tuneStates.off }
  else g

/-- The function `TuneSM`. The `default` branch of the switch is not reachable
for a value of the enum. -/
def TuneSM (g : Globals) : Globals :=
  match g.state2 with
  | .start2 => { g with state2 := tuneStates.off, LEDFlag := 0x00 }
  | .off => compareSample { g with tmpC := 0xFF, LEDFlag := 0x00 }
  | .on => compareSample (pickPattern { g with LEDFlag := 0x01 })

/-- One pass of the input reading of `main` followed by `ChangeMax`: the two
input levels are stored in `B0` and `B1`. -/
def feed (g : Globals) (ab : Nat × Nat) : Globals :=
  ChangeMax { g with B0 := ab.1, B1 := ab.2 }

/-- Feeds a sequence of input pairs to `ChangeMax`, one call per pair. -/
def run (inputs : List (Nat × Nat)) (g : Globals) : Globals :=
  inputs.foldl feed g

/-- Repeats `n` calls of `ChangeMax` with the same input pair. -/
def hold_for (ab : Nat × Nat) : Nat → Globals → Globals
  | 0, g => g
  | n + 1, g => hold_for ab n (feed g ab)

/-- The pattern the if-chain of case `on` assigns for tune-levels 0 to 7. -/
def levelMask : Nat → Nat
  | 0 => 0x7F
  | 1 => 0xBF
  | 2 => 0xDF
  | 3 => 0xEF
  | 4 => 0xF7
  | 5 => 0xFB
  | 6 => 0xFD
  | _ => 0xFE

/-- Invariant of the tuning state machine: threshold and tune-level agree, the
tune-level is at most 7, and the states `add` and `sub` are entered only with
room for their step. -/
def TuneInv (g : Globals) : Prop :=
  g.max = 400 + 10 * g.tuneFlag ∧ g.tuneFlag ≤ 7
    ∧ (g.state1 = States.add → g.tuneFlag < 7)
    ∧ (g.state1 = States.sub → 0 < g.tuneFlag)
    ∧ (g.state1 = States.start1 → g.tuneFlag = 0)

/-- Globals in state `hold` at the minimum threshold with input B asserted alone
(end-to-end scenario 3). -/
def scenario3 : Globals :=
  { Globals.init with state1 := States.hold, B0 := 0, B1 := 1 }

/-- Globals in state `hold` with threshold 430 and tune-level 3. -/
def holdAt430 : Globals :=
  { Globals.init with state1 := States.hold, max := 430, tuneFlag := 3 }

/-- Globals in state `off` with sample 450, threshold 400 and tune-level 3. -/
def offAbove : Globals :=
  { Globals.init with state2 := tuneStates.off, ADC_num := 450, max := 400, tuneFlag := 3 }

/-- Globals in state `on` with sample 399, threshold 400 and tune-level 0. -/
def onBelow : Globals :=
  { Globals.init with
    state2 := tuneStates.on
    ADC_num := 399
    max := 400
    tuneFlag := 0
    LEDFlag := 1
    tmpC := 0x7F }

/-- The three colors of end-to-end scenario 4. -/
def scenario4 : List rgb_color := [⟨10, 20, 30⟩, ⟨0, 0, 0⟩, ⟨255, 255, 255⟩]

/-- Duration in nanoseconds of a number of cycles at a clock. -/
def nsOf (clk : Clock) (cycles : Nat) : Nat := cycles * 1000000000 / clk.hz

/-- Cycle stamps of the rising edges of an event log, in order. -/
def riseTimes : List Ev → List Nat
  | [] => []
  | Ev.high t :: es => t :: riseTimes es
  | _ :: es => riseTimes es

/-- Distances between consecutive entries of a list of cycle stamps. -/
def gaps : List Nat → List Nat
  | a :: b :: rest => (b - a) :: gaps (b :: rest)
  | _ => []

/-- Rising edges of one pass of `send_color` at 20 MHz, in cycles from its
entry: eight per byte, for the three bytes of a color. -/
def riseOffsets20 : List Nat :=
  [12, 38, 64, 90, 116, 142, 168, 194,
   229, 255, 281, 307, 333, 359, 385, 411,
   450, 476, 502, 528, 554, 580, 606, 632]

/-! ## Pattern positions -/

/-- Positions (bit numbers 0 to 7) that an output pattern lights: the indicator
outputs are active low, so a position is lit where the pattern has a 0 bit. -/
def lit (p : Nat) : List Nat :=
  (List.range 8).filter fun i => p / 2 ^ i % 2 = 0

/-- The pattern `TuneSM` writes in state `on` at tune-level `l`, the other
globals as initialized. -/
def onPattern (l : Nat) : Nat :=
  (TuneSM { Globals.init with state2 := tuneStates.on, tuneFlag := l }).tmpC

/-! ## Millisecond scheduler -/

/-- The variables of the scheduler: `TimerFlag` is a `volatile unsigned char`,
`_avr_timer_M` and `_avr_timer_cntcurr` are `unsigned long` (32 bits). -/
structure Timer where
  TimerFlag : Nat
  _avr_timer_M : Nat
  _avr_timer_cntcurr : Nat
deriving DecidableEq, Repr

/-- The scheduler variables as their initializers leave them. -/
def Timer.init : Timer :=
  { TimerFlag := 0, _avr_timer_M := 1, _avr_timer_cntcurr := 0 }

/-- The function `TimerISR`. -/
def TimerISR (t : Timer) : Timer := { t with TimerFlag := 1 }

/-- The handler `ISR(TIMER1_COMPA_vect)`: one hardware tick. -/
def TIMER1_COMPA_vect (t : Timer) : Timer :=
  let t := { t with _avr_timer_cntcurr := (t._avr_timer_cntcurr + 4294967296 - 1) % 4294967296 }
  if t._avr_timer_cntcurr = 0 then
    { TimerISR t with _avr_timer_cntcurr := t._avr_timer_M }
  else t

/-- The function `TimerSet(M)`; the argument is an `unsigned long`. -/
def TimerSet (M : Nat) (t : Timer) : Timer :=
  { t with _avr_timer_M := M % 4294967296, _avr_timer_cntcurr := M % 4294967296 }

/-- The function `TimerOn`, as far as it touches the scheduler variables (the
timer registers are not modelled). -/
def TimerOn (t : Timer) : Timer :=
  { t with _avr_timer_cntcurr := t._avr_timer_M }

/-- The function `TimerOff`: it writes a timer register only. -/
def TimerOff (t : Timer) : Timer := t

/-- The consumer's clear, `TimerFlag = 0` in `main`. -/
def clearFlag (t : Timer) : Timer := { t with TimerFlag := 0 }

/-- State after `n` hardware ticks with no clear by the consumer. -/
def ticks : Nat → Timer → Timer
  | 0, t => t
  | n + 1, t => TIMER1_COMPA_vect (ticks n t)

/-- State after `n` hardware ticks, the consumer clearing the flag after each. -/
def served : Nat → Timer → Timer
  | 0, t => t
  | n + 1, t => clearFlag (TIMER1_COMPA_vect (served n t))

/-- Whether the `k`-th hardware tick (`k >= 1`) after state `t` raises the flag,
the consumer having cleared it after each earlier tick: the flag is clear
before the handler runs and is read right after it. -/
def raisedAt (t : Timer) (k : Nat) : Bool :=
  decide ((TIMER1_COMPA_vect (clearFlag (served (k - 1) t))).TimerFlag = 1)

/-! ## Control loop: animation burst -/

/-- The assignment `x = (time >> 2) - 8*i` (16-bit unsigned arithmetic, stored
in an `unsigned char`) and the color `(rgb_color){ x, 255 - x, x }`. -/
def pixel (time i : Nat) : rgb_color :=
  let x := (time % 65536 / 4 + 65536 - 8 * i % 65536) % 65536 % 256
  { red := x, green := 255 - x, blue := x }

/-- The loop `for(i = 0; i < n; i++) colors[i] = ...` of the animation, after
`n` passes. -/
def fillGradient (time : Nat) : Nat → List rgb_color → List rgb_color
  | 0, cs => cs
  | n + 1, cs => (fillGradient time n cs).set n (pixel time n)

/-- What the control loop sees at one test of `while(!TimerFlag)`: whether the
tick handler has raised the flag since the consumer last cleared it, the two
reads of `PINB` of the loop body, and the `ADC` register. -/
structure Poll where
  raised : Bool
  PINB1 : Nat
  PINB2 : Nat
  ADC : Nat
deriving DecidableEq, Repr

/-- Actions of the animation burst: a frame built and sent with
`led_strip_write`, or one `TuneSM` evaluation. -/
inductive Act where
  | frame (cs : List rgb_color)
  | eval
deriving DecidableEq, Repr

/-- Whether an action is a frame. -/
def Act.isFrame : Act → Bool
  | Act.frame _ => true
  | Act.eval => false

/-- Whether an action is a `TuneSM` evaluation. -/
def Act.isEval : Act → Bool
  | Act.frame _ => false
  | Act.eval => true

/-- State of the control loop of `main` during a burst: the globals, the flag
as the loop reads it, the locals `time` and `cnt`, the `colors` array, `PORTC`,
and the log of actions. -/
structure Control where
  g : Globals
  TimerFlag : Nat
  time : Nat
  cnt : Nat
  colors : List rgb_color
  PORTC : Nat
  log : List Act
deriving DecidableEq, Repr

/-- The input reading of `main`: `B0` is set when bit 0 of `PINB` is low, `B1`
when bit 1 is low. -/
def readInputs (p1 p2 : Nat) (g : Globals) : Globals :=
  { g with B0 := if p1 % 2 = 0 then 1 else 0, B1 := if p2 / 2 % 2 = 0 then 1 else 0 }

/-- The body of `while(!TimerFlag) { ... }`: inputs, `ChangeMax`, the gradient
frame, `led_strip_write(colors, LED_COUNT)`, `time += 10`. -/
def framePass (p : Poll) (s : Control) : Control :=
  { s with
    g := ChangeMax (readInputs p.PINB1 p.PINB2 s.g)
    colors := fillGradient s.time LED_COUNT s.colors
    log := s.log ++ [Act.frame (fillGradient s.time LED_COUNT s.colors)]
    time := (s.time + 10) % 65536 }

/-- The statement `if(TimerFlag) { ADC_num = ADC; TimerFlag = 0; }`. -/
def takeSample (p : Poll) (s : Control) : Control :=
  if s.TimerFlag ≠ 0 then
    { s with g := { s.g with ADC_num := p.ADC % 65536 }, TimerFlag := 0 }
  else s

/-- The rest of a pass of `while(cnt < 50)` once the wait loop is left: the
sample, `TuneSM`, `PORTC = tmpC`, `cnt++`. -/
def evalPass (p : Poll) (s : Control) : Control :=
  { takeSample p s with
    g := TuneSM (takeSample p s).g
    PORTC := (TuneSM (takeSample p s).g).tmpC
    cnt := ((takeSample p s).cnt + 1) % 256
    log := (takeSample p s).log ++ [Act.eval] }

/-- The loop `while(cnt < 50) { while(!TimerFlag) { ... } ... }`, driven by what
each test of `TimerFlag` sees; it returns when `cnt` reaches 50, or where it
stands when the polls run out. -/
def burst : List Poll → Control → Control
  | [], s => s
  | p :: ps, s =>
    if s.cnt < 50 then
      if (if p.raised then 1 else s.TimerFlag) = 0 then
        burst ps (framePass p s)
      else
        burst ps (evalPass p { s with TimerFlag := if p.raised then 1 else s.TimerFlag })
    else s

/-- Number of frames sent so far. -/
def frames (s : Control) : Nat := s.log.countP Act.isFrame

/-- Number of `TuneSM` evaluations so far. -/
def evals (s : Control) : Nat := s.log.countP Act.isEval

/-- Polls of one pass of the outer loop: tests that find the flag clear, then
one that finds it raised. -/
def roundPolls (r : List Poll × Poll) : List Poll :=
  r.1.map (fun p => { p with raised := false }) ++ [{ r.2 with raised := true }]

/-- Polls of a sequence of passes of the outer loop. -/
def timing : List (List Poll × Poll) → List Poll
  | [] => []
  | r :: rs => roundPolls r ++ timing rs

/-- Total number of tests that find the flag clear. -/
def waits : List (List Poll × Poll) → Nat
  | [] => 0
  | r :: rs => r.1.length + waits rs

/-- A control loop state at the entry of a burst: `cnt = 0`, flag clear, log
empty. -/
def Control.enter (s : Control) : Control :=
  { s with cnt := 0, TimerFlag := 0, log := [] }

/-- A control loop state with the indicator on and all LEDs off. -/
def burstStart : Control :=
  { g := { Globals.init with state1 := States.hold, state2 := tuneStates.on, LEDFlag := 1 }
    TimerFlag := 0
    time := 0
    cnt := 0
    colors := List.replicate LED_COUNT ⟨0, 0, 0⟩
    PORTC := 0xFF
    log := [] }

/-- A poll with both inputs released and sample 0. -/
def quietPoll : Poll := { raised := false, PINB1 := 0xFF, PINB2 := 0xFF, ADC := 0 }

/-! ## Protocol encoder: lemmas -/

theorem isOne_highCycles (clk : Clock) (b : Bool) : isOne clk (highCycles clk b) = b := by
  cases clk <;> cases b <;> decide

theorem send_led_strip_bit_eq (clk : Clock) (s : Avr) :
    send_led_strip_bit clk s =
      { s with
        tmp := (2 * s.tmp + (if s.carry then 1 else 0)) % 256
        carry := msb s.tmp
        line := false
        cycles := s.cycles + bitCycles clk
        trace := s.trace ++ [Ev.high (s.cycles + riseAt clk),
          Ev.low (s.cycles + riseAt clk + highCycles clk (msb s.tmp))] } := by
  cases clk <;> by_cases h : s.tmp / 128 % 2 = 1 <;>
    simp [send_led_strip_bit, rol, sbi, cbi, nops, tick, brcs_skip, brcc_skip, ret, msb, h,
      riseAt, highCycles, bitCycles, Nat.add_assoc]

theorem pulseWidths_pulse (a b : Nat) (es : List Ev) :
    pulseWidths (Ev.high a :: Ev.low b :: es)
      = (pulseWidths es).map fun ws => (b - a) :: ws := by
  simp [pulseWidths]

theorem pulseWidths_append (xs ys : List Ev) (w1 w2 : List Nat)
    (h1 : pulseWidths xs = some w1) (h2 : pulseWidths ys = some w2) :
    pulseWidths (xs ++ ys) = some (w1 ++ w2) := by
  induction xs using pulseWidths.induct generalizing w1 with
  | case1 => simp [pulseWidths] at h1; subst h1; simpa using h2
  | case2 a b es ih =>
    rw [pulseWidths_pulse] at h1
    rw [List.cons_append, List.cons_append, pulseWidths_pulse]
    cases hd : pulseWidths es with
    | none => simp [hd] at h1
    | some ws =>
      simp [hd] at h1
      subst h1
      simp [ih ws hd]
  | case3 es hne hne2 => simp [pulseWidths] at h1

theorem decode_append (clk : Clock) (xs ys : List Ev) (b1 b2 : List Bool)
    (h1 : decode clk xs = some b1) (h2 : decode clk ys = some b2) :
    decode clk (xs ++ ys) = some (b1 ++ b2) := by
  unfold decode at *
  cases hx : pulseWidths xs with
  | none => simp [hx] at h1
  | some w1 =>
    cases hy : pulseWidths ys with
    | none => simp [hy] at h2
    | some w2 =>
      simp [hx] at h1
      simp [hy] at h2
      simp [pulseWidths_append xs ys w1 w2 hx hy, h1, h2]

theorem msb_mod (t : Nat) : msb (t % 256) = msb t := by
  simp only [msb, decide_eq_decide]; omega

theorem rolTmp_mod (t : Nat) (c : Bool) : rolTmp (t % 256) c = rolTmp t c := by
  simp only [rolTmp]; omega

theorem byteBits_mod (t : Nat) : byteBits (t % 256) = byteBits t := by
  simp only [byteBits, List.map, List.cons.injEq, and_true, decide_eq_decide]
  norm_num
  omega

set_option maxRecDepth 100000 in
theorem rolBits_eight_lt : ∀ t < 256, ∀ c : Bool, rolBits 8 t c = byteBits t := by
  decide

theorem rolBits_eight (t : Nat) (c : Bool) : rolBits 8 t c = byteBits t := by
  have h := rolBits_eight_lt (t % 256) (Nat.mod_lt _ (by decide)) c
  rw [byteBits_mod] at h
  rw [← h]
  simp only [rolBits, msb_mod, rolTmp_mod]

theorem send_led_strip_byte_eq (clk : Clock) (s : Avr) :
    send_led_strip_byte clk s = ret (sendBits clk 8 s) := rfl

theorem sendBits_spec (clk : Clock) (n : Nat) (s : Avr) :
    ∃ seg, (sendBits clk n s).trace = s.trace ++ seg
      ∧ decode clk seg = some (rolBits n s.tmp s.carry)
      ∧ (sendBits clk n s).mem = s.mem ∧ (sendBits clk n s).ptr = s.ptr
      ∧ (sendBits clk n s).iflag = s.iflag := by
  induction n generalizing s with
  | zero => exact ⟨[], by simp [sendBits], by simp [decode, pulseWidths, rolBits], rfl, rfl, rfl⟩
  | succ n ih =>
    obtain ⟨seg, ht, hd, hm, hp, hi⟩ := ih (rcall (send_led_strip_bit clk) s)
    simp only [rcall, send_led_strip_bit_eq, tick] at ht hd hm hp hi
    refine ⟨Ev.high (s.cycles + 3 + riseAt clk)
      :: Ev.low (s.cycles + 3 + riseAt clk + highCycles clk (msb s.tmp)) :: seg, ?_, ?_, ?_, ?_, ?_⟩
    · simp only [sendBits, rcall, send_led_strip_bit_eq, tick, ht]
      simp
    · have h1 : decode clk [Ev.high (s.cycles + 3 + riseAt clk),
          Ev.low (s.cycles + 3 + riseAt clk + highCycles clk (msb s.tmp))] = some [msb s.tmp] := by
        simp [decode, pulseWidths, isOne_highCycles]
      have := decode_append clk _ seg _ _ h1 hd
      simpa [rolBits, rolTmp] using this
    · simpa [sendBits, rcall, send_led_strip_bit_eq, tick] using hm
    · simpa [sendBits, rcall, send_led_strip_bit_eq, tick] using hp
    · simpa [sendBits, rcall, send_led_strip_bit_eq, tick] using hi

theorem byte_spec (clk : Clock) (s : Avr) :
    ∃ seg, (rcall (send_led_strip_byte clk) s).trace = s.trace ++ seg
      ∧ decode clk seg = some (byteBits s.tmp)
      ∧ (rcall (send_led_strip_byte clk) s).mem = s.mem
      ∧ (rcall (send_led_strip_byte clk) s).ptr = s.ptr
      ∧ (rcall (send_led_strip_byte clk) s).iflag = s.iflag := by
  obtain ⟨seg, ht, hd, hm, hp, hi⟩ := sendBits_spec clk 8 (tick 3 s)
  rw [rolBits_eight] at hd
  exact ⟨seg, by simpa [rcall, send_led_strip_byte_eq, ret, tick] using ht,
    by simpa [tick] using hd,
    by simpa [rcall, send_led_strip_byte_eq, ret, tick] using hm,
    by simpa [rcall, send_led_strip_byte_eq, ret, tick] using hp,
    by simpa [rcall, send_led_strip_byte_eq, ret, tick] using hi⟩

theorem byte_mem (clk : Clock) (s : Avr) :
    (rcall (send_led_strip_byte clk) s).mem = s.mem := by
  obtain ⟨_, _, _, hm, _, _⟩ := byte_spec clk s
  exact hm

theorem byte_ptr (clk : Clock) (s : Avr) :
    (rcall (send_led_strip_byte clk) s).ptr = s.ptr := by
  obtain ⟨_, _, _, _, hp, _⟩ := byte_spec clk s
  exact hp

theorem byte_iflag (clk : Clock) (s : Avr) :
    (rcall (send_led_strip_byte clk) s).iflag = s.iflag := by
  obtain ⟨_, _, _, _, _, hi⟩ := byte_spec clk s
  exact hi

theorem byte_trace (clk : Clock) (s : Avr) :
    ∃ seg, (rcall (send_led_strip_byte clk) s).trace = s.trace ++ seg
      ∧ decode clk seg = some (byteBits s.tmp) := by
  obtain ⟨seg, ht, hd, _, _, _⟩ := byte_spec clk s
  exact ⟨seg, ht, hd⟩

theorem load_of_drop (s : Avr) (k : Nat) (l : List Nat)
    (h : s.mem.drop s.ptr = l) : s.mem.getD (s.ptr + k) 0 = l.getD k 0 := by
  subst h
  simp [List.getD_eq_getElem?_getD, List.getElem?_drop]

theorem send_color_spec (clk : Clock) (s : Avr) (c : rgb_color) (rest : List Nat)
    (h : s.mem.drop s.ptr = c.red % 256 :: c.green % 256 :: c.blue % 256 :: rest) :
    ∃ seg, (send_color clk s).trace = s.trace ++ seg
      ∧ decode clk seg = some (grbBits c)
      ∧ (send_color clk s).mem = s.mem ∧ (send_color clk s).ptr = s.ptr + 3
      ∧ (send_color clk s).iflag = s.iflag := by
  have l0 := load_of_drop s 0 _ h
  have l1 := load_of_drop s 1 _ h
  have l2 := load_of_drop s 2 _ h
  simp only [List.getD_cons_zero, List.getD_cons_succ, Nat.add_zero] at l0 l1 l2
  have e1 : ∀ x : Avr, (ld_postinc x).mem = x.mem := fun _ => rfl
  have e2 : ∀ x : Avr, (ld_plain x).mem = x.mem := fun _ => rfl
  have e3 : ∀ x : Avr, (ld_predec x).mem = x.mem := fun _ => rfl
  have e4 : ∀ x : Avr, (rjmp x).mem = x.mem := fun _ => rfl
  have p1 : ∀ x : Avr, (ld_postinc x).ptr = x.ptr + 1 := fun _ => rfl
  have p2 : ∀ x : Avr, (ld_plain x).ptr = x.ptr := fun _ => rfl
  have p3 : ∀ x : Avr, (ld_predec x).ptr = x.ptr - 1 := fun _ => rfl
  have p4 : ∀ x : Avr, (rjmp x).ptr = x.ptr := fun _ => rfl
  have t1 : ∀ x : Avr, (ld_postinc x).trace = x.trace := fun _ => rfl
  have t2 : ∀ x : Avr, (ld_plain x).trace = x.trace := fun _ => rfl
  have t3 : ∀ x : Avr, (ld_predec x).trace = x.trace := fun _ => rfl
  have t4 : ∀ x : Avr, (rjmp x).trace = x.trace := fun _ => rfl
  have i1 : ∀ x : Avr, (ld_postinc x).iflag = x.iflag := fun _ => rfl
  have i2 : ∀ x : Avr, (ld_plain x).iflag = x.iflag := fun _ => rfl
  have i3 : ∀ x : Avr, (ld_predec x).iflag = x.iflag := fun _ => rfl
  have i4 : ∀ x : Avr, (rjmp x).iflag = x.iflag := fun _ => rfl
  have v1 : ∀ x : Avr, (ld_postinc x).tmp = x.mem.getD x.ptr 0 % 256 := fun _ => rfl
  have v2 : ∀ x : Avr, (ld_plain x).tmp = x.mem.getD x.ptr 0 % 256 := fun _ => rfl
  have v3 : ∀ x : Avr, (ld_predec x).tmp = x.mem.getD (x.ptr - 1) 0 % 256 := fun _ => rfl
  obtain ⟨seg1, ht1, hd1⟩ := byte_trace clk (ld_plain (ld_postinc s))
  obtain ⟨seg2, ht2, hd2⟩ :=
    byte_trace clk (ld_predec (rcall (send_led_strip_byte clk) (ld_plain (ld_postinc s))))
  obtain ⟨seg3, ht3, hd3⟩ :=
    byte_trace clk (ld_postinc (ld_postinc (ld_postinc (rcall (send_led_strip_byte clk)
      (ld_predec (rcall (send_led_strip_byte clk) (ld_plain (ld_postinc s))))))))
  simp only [e1, e2, e3, p1, p2, p3, t1, t2, t3, v1, v2, v3, byte_mem, byte_ptr,
    Nat.add_sub_cancel, Nat.add_assoc, Nat.reduceAdd, l0, l1, l2, Nat.mod_mod] at ht1 hd1 ht2 hd2 ht3 hd3
  rw [ht1] at ht2
  rw [ht2] at ht3
  refine ⟨seg1 ++ (seg2 ++ seg3), ?_, ?_, ?_, ?_, ?_⟩
  · simp only [send_color, t4, ht3, List.append_assoc]
  · have h23 := decode_append clk _ _ _ _ hd2 hd3
    have h123 := decode_append clk _ _ _ _ hd1 h23
    simpa [grbBits, List.append_assoc] using h123
  · simp only [send_color, e1, e2, e3, e4, byte_mem]
  · simp only [send_color, p1, p2, p3, p4, byte_ptr, Nat.add_sub_cancel, Nat.add_assoc]
  · simp only [send_color, i1, i2, i3, i4, byte_iflag]

theorem send_color_iflag (clk : Clock) (s : Avr) : (send_color clk s).iflag = s.iflag := by
  have i1 : ∀ x : Avr, (ld_postinc x).iflag = x.iflag := fun _ => rfl
  have i2 : ∀ x : Avr, (ld_plain x).iflag = x.iflag := fun _ => rfl
  have i3 : ∀ x : Avr, (ld_predec x).iflag = x.iflag := fun _ => rfl
  have i4 : ∀ x : Avr, (rjmp x).iflag = x.iflag := fun _ => rfl
  simp only [send_color, i1, i2, i3, i4, byte_iflag]

theorem send_colors_iflag (clk : Clock) (n : Nat) (s : Avr) :
    (send_colors clk n s).iflag = s.iflag := by
  induction n generalizing s with
  | zero => rfl
  | succ n ih => simp only [send_colors, ih, send_color_iflag]

theorem send_colors_spec (clk : Clock) (cs : List rgb_color) (s : Avr)
    (h : s.mem.drop s.ptr = layout cs) :
    ∃ seg, (send_colors clk cs.length s).trace = s.trace ++ seg
      ∧ decode clk seg = some (wireBits cs)
      ∧ (send_colors clk cs.length s).iflag = s.iflag := by
  induction cs generalizing s with
  | nil => exact ⟨[], by simp [send_colors], by simp [decode, pulseWidths, wireBits], rfl⟩
  | cons c cs ih =>
    obtain ⟨seg1, ht1, hd1, hm1, hp1, hi1⟩ := send_color_spec clk s c (layout cs) h
    have h2 : (send_color clk s).mem.drop (send_color clk s).ptr = layout cs := by
      rw [hm1, hp1, ← List.drop_drop, h]
      rfl
    obtain ⟨seg2, ht2, hd2, hi2⟩ := ih (send_color clk s) h2
    refine ⟨seg1 ++ seg2, ?_, ?_, ?_⟩
    · simp only [List.length_cons, send_colors, ht2, ht1, List.append_assoc]
    · simpa [wireBits] using decode_append clk _ _ _ _ hd1 hd2
    · simp only [List.length_cons, send_colors, hi2, hi1]

theorem led_strip_write_spec (clk : Clock) (s0 : Avr) (cs : List rgb_color) :
    ∃ seg, (led_strip_write clk cs.length (s0.atCall cs)).trace
        = Ev.low (s0.cycles + 2) :: Ev.cli :: (seg ++ [Ev.sei, Ev.delay_us 80])
      ∧ decode clk seg = some (wireBits cs)
      ∧ (led_strip_write clk cs.length (s0.atCall cs)).iflag = true := by
  have h : (cli { cbi (s0.atCall cs) with ddr := true }).mem.drop
      (cli { cbi (s0.atCall cs) with ddr := true }).ptr = layout cs := by
    simp [cli, cbi, Avr.atCall]
  obtain ⟨seg, ht, hd, _⟩ := send_colors_spec clk cs _ h
  refine ⟨seg, ?_, hd, ?_⟩
  · simp only [led_strip_write, _delay_us, sei, ht]
    simp [cli, cbi, Avr.atCall]
  · simp [led_strip_write, _delay_us, sei]

theorem wireBits_length (cs : List rgb_color) : (wireBits cs).length = 24 * cs.length := by
  induction cs with
  | nil => rfl
  | cons c cs ih =>
    simp only [wireBits, List.length_append, ih, List.length_cons, grbBits, byteBits,
      List.length_map, List.length_nil]
    omega

theorem takeWhile_pulses (seg rest : List Ev) (ws : List Nat)
    (h : pulseWidths seg = some ws) :
    (seg ++ Ev.sei :: rest).takeWhile (fun e => e ≠ Ev.sei) = seg := by
  induction seg using pulseWidths.induct generalizing ws with
  | case1 => simp
  | case2 a b es ih =>
    rw [pulseWidths_pulse] at h
    cases hd : pulseWidths es with
    | none => simp [hd] at h
    | some w =>
      have := ih w hd
      simp only [ne_eq, decide_not] at this
      simp [List.takeWhile, this]
  | case3 es hne hne2 => simp [pulseWidths] at h

theorem led_strip_write_bitStream (clk : Clock) (s0 : Avr) (cs : List rgb_color) :
    bitStream clk (led_strip_write clk cs.length (s0.atCall cs)).trace
      = some (wireBits cs) := by
  obtain ⟨seg, ht, hd, _⟩ := led_strip_write_spec clk s0 cs
  rw [ht]
  simp only [bitStream]
  cases hw : pulseWidths seg with
  | none => simp [decode, hw] at hd
  | some ws => rw [takeWhile_pulses seg _ ws hw]; exact hd

/-! ## Protocol encoder: claims -/

/-- C1 (wire order): for every clock, machine state and colors array the bit
stream of `led_strip_write` is, color by color, the 8 bits of the GREEN channel,
then RED, then BLUE, each most significant bit first; for the single color
(255, 0, 0) this is eight 0 bits, eight 1 bits, eight 0 bits, which is not the
red, green, blue order (eight 1 bits first). -/
theorem C1_wire_order_is_green_red_blue :
    (∀ (clk : Clock) (s0 : Avr) (cs : List rgb_color),
      bitStream clk (led_strip_write clk cs.length (s0.atCall cs)).trace
        = some (wireBits cs))
    ∧ bitStream F_CPU (led_strip_write F_CPU 1 (idle.atCall [⟨255, 0, 0⟩])).trace
        = some (List.replicate 8 false ++ List.replicate 8 true ++ List.replicate 8 false)
    ∧ bitStream F_CPU (led_strip_write F_CPU 1 (idle.atCall [⟨255, 0, 0⟩])).trace
        ≠ some (structBits [⟨255, 0, 0⟩]) := by
  refine ⟨led_strip_write_bitStream, ?_, ?_⟩
  · rw [show (1 : Nat) = [(⟨255, 0, 0⟩ : rgb_color)].length from rfl,
      led_strip_write_bitStream]
    decide
  · rw [show (1 : Nat) = [(⟨255, 0, 0⟩ : rgb_color)].length from rfl,
      led_strip_write_bitStream]
    decide

/-- C2 (pulse count): for every clock, machine state and colors array of length
N, the event log of `led_strip_write` is the initial pin write, `cli`, a stretch
made of exactly 24 * N pulses and nothing else, `sei`, and one `_delay_us(80)` as
its last event; for the three colors of scenario 4 at 8 MHz the stretch has 72
pulses. -/
theorem C2_pulses_then_quiet_period :
    (∀ (clk : Clock) (s0 : Avr) (cs : List rgb_color), ∃ t seg ws,
      (led_strip_write clk cs.length (s0.atCall cs)).trace
          = Ev.low t :: Ev.cli :: (seg ++ [Ev.sei, Ev.delay_us 80])
        ∧ pulseWidths seg = some ws ∧ ws.length = 24 * cs.length)
    ∧ (∃ t seg ws,
      (led_strip_write F_CPU 3 (idle.atCall scenario4)).trace
          = Ev.low t :: Ev.cli :: (seg ++ [Ev.sei, Ev.delay_us 80])
        ∧ pulseWidths seg = some ws ∧ ws.length = 72) := by
  have gen : ∀ (clk : Clock) (s0 : Avr) (cs : List rgb_color), ∃ t seg ws,
      (led_strip_write clk cs.length (s0.atCall cs)).trace
          = Ev.low t :: Ev.cli :: (seg ++ [Ev.sei, Ev.delay_us 80])
        ∧ pulseWidths seg = some ws ∧ ws.length = 24 * cs.length := by
    intro clk s0 cs
    obtain ⟨seg, ht, hd, _⟩ := led_strip_write_spec clk s0 cs
    cases hw : pulseWidths seg with
    | none => simp [decode, hw] at hd
    | some ws =>
      refine ⟨_, seg, ws, ht, hw, ?_⟩
      simp only [decode, hw, Option.map_some', Option.some.injEq] at hd
      have := congrArg List.length hd
      simpa [wireBits_length] using this
  exact ⟨gen, gen F_CPU idle scenario4⟩

/-- C3 (interrupt window): in every run of `led_strip_write` the event log is the
initial pin write, then `cli`, then pulses only, then `sei`, then the
`_delay_us(80)`: `cli` precedes the first pulse, every pulse lies between `cli`
and `sei`, `sei` follows the last pulse and precedes the quiet period. The
interrupt enable bit is clear after `cli` and still clear after any number of
passes of the loop, and it is set in the state the function returns. -/
theorem C3_pulses_inside_cli_sei (clk : Clock) (s0 : Avr) (cs : List rgb_color) :
    (∃ t seg ws,
      (led_strip_write clk cs.length (s0.atCall cs)).trace
          = [Ev.low t, Ev.cli] ++ seg ++ [Ev.sei, Ev.delay_us 80]
        ∧ pulseWidths seg = some ws)
    ∧ (∀ n, (send_colors clk n (cli { cbi (s0.atCall cs) with ddr := true })).iflag = false)
    ∧ (led_strip_write clk cs.length (s0.atCall cs)).iflag = true := by
  obtain ⟨seg, ht, hd, hi⟩ := led_strip_write_spec clk s0 cs
  refine ⟨?_, fun n => ?_, hi⟩
  · cases hw : pulseWidths seg with
    | none => simp [decode, hw] at hd
    | some ws => exact ⟨_, seg, ws, by simpa using ht, hw⟩
  · rw [send_colors_iflag]
    rfl

/-! ## Threshold tuning state machine: lemmas -/

theorem add_no_wrap (m t : Nat) (h1 : m = 400 + 10 * t) (h3 : t < 7) :
    (m + 10) % 65536 = m + 10 ∧ (t + 1) % 256 = t + 1 :=
  ⟨Nat.mod_eq_of_lt (by omega), Nat.mod_eq_of_lt (by omega)⟩

theorem sub_no_wrap (m t : Nat) (h1 : m = 400 + 10 * t) (h2 : t ≤ 7) (h4 : 0 < t) :
    (m + 65536 - 10) % 65536 = m - 10 ∧ (t + 256 - 1) % 256 = t - 1 := by
  constructor
  · rw [show m + 65536 - 10 = (m - 10) + 65536 by omega, Nat.add_mod_right]
    exact Nat.mod_eq_of_lt (by omega)
  · rw [show t + 256 - 1 = (t - 1) + 256 by omega, Nat.add_mod_right]
    exact Nat.mod_eq_of_lt (by omega)

theorem feed_inv (g : Globals) (ab : Nat × Nat) (h : TuneInv g) : TuneInv (feed g ab) := by
  obtain ⟨h1, h2, h3, h4, h5⟩ := h
  unfold feed ChangeMax TuneInv
  cases hs : g.state1 <;> simp only [hs] at h3 h4 h5 ⊢
  · simp
  · split_ifs <;> simp <;> omega
  · obtain ⟨e1, e2⟩ := add_no_wrap g.max g.tuneFlag h1 (h3 trivial)
    have := h3 trivial
    simp only [e1, e2]
    simp
    omega
  · obtain ⟨e1, e2⟩ := sub_no_wrap g.max g.tuneFlag h1 h2 (h4 trivial)
    have := h4 trivial
    simp only [e1, e2]
    simp
    omega
  · split_ifs <;> simp <;> omega

theorem run_inv (inputs : List (Nat × Nat)) (g : Globals) (h : TuneInv g) :
    TuneInv (run inputs g) := by
  induction inputs generalizing g with
  | nil => exact h
  | cons ab rest ih => exact ih (feed g ab) (feed_inv g ab h)

theorem init_inv : TuneInv Globals.init := by
  simp [TuneInv, Globals.init]

theorem feed_hold_up (g : Globals) (a : Nat) (hs : g.state1 = States.hold) (ha : a ≠ 0)
    (hm : g.max < 470) :
    (feed g (a, 0)).state1 = States.add ∧ (feed g (a, 0)).max = g.max := by
  simp [feed, ChangeMax, hs, ha, hm]

theorem feed_hold_down (g : Globals) (b : Nat) (hs : g.state1 = States.hold) (hb : b ≠ 0)
    (hm : 400 < g.max) :
    (feed g (0, b)).state1 = States.sub ∧ (feed g (0, b)).max = g.max := by
  simp [feed, ChangeMax, hs, hb, hm]

theorem feed_add (g : Globals) (ab : Nat × Nat) (hs : g.state1 = States.add) :
    (feed g ab).state1 = States.wait ∧ (feed g ab).max = (g.max + 10) % 65536 := by
  simp [feed, ChangeMax, hs]

theorem feed_sub (g : Globals) (ab : Nat × Nat) (hs : g.state1 = States.sub) :
    (feed g ab).state1 = States.wait ∧ (feed g ab).max = (g.max + 65536 - 10) % 65536 := by
  simp [feed, ChangeMax, hs]

theorem feed_wait_released (g : Globals) (hs : g.state1 = States.wait) :
    (feed g (0, 0)).state1 = States.hold ∧ (feed g (0, 0)).max = g.max := by
  simp [feed, ChangeMax, hs]

theorem feed_wait_pressed (g : Globals) (ab : Nat × Nat) (hs : g.state1 = States.wait)
    (h : ab.1 ≠ 0 ∨ ab.2 ≠ 0) :
    (feed g ab).state1 = States.wait ∧ (feed g ab).max = g.max := by
  have h2 : ¬ (ab.1 = 0 ∧ ab.2 = 0) := by
    rintro ⟨h1, h2⟩
    rcases h with h | h
    · exact h h1
    · exact h h2
  simp [feed, ChangeMax, hs, h2]

theorem wait_stays (ab : Nat × Nat) (h : ab.1 ≠ 0 ∨ ab.2 ≠ 0) (n : Nat) (g : Globals)
    (hs : g.state1 = States.wait) :
    (hold_for ab n g).state1 = States.wait ∧ (hold_for ab n g).max = g.max := by
  induction n generalizing g with
  | zero => exact ⟨hs, rfl⟩
  | succ n ih =>
    obtain ⟨h1, h2⟩ := feed_wait_pressed g ab hs h
    obtain ⟨h3, h4⟩ := ih (feed g ab) h1
    exact ⟨h3, by rw [show hold_for ab (n + 1) g = hold_for ab n (feed g ab) from rfl, h4, h2]⟩

/-- After a step has been taken towards `wait`, releasing both inputs reaches
`hold` at the first release call, or at the second one when the gesture lasted a
single call; the threshold then differs from the one before by the step. -/
theorem gesture_ends (ab : Nat × Nat) (h : ab.1 ≠ 0 ∨ ab.2 ≠ 0) (n : Nat) (g1 : Globals)
    (v : Nat) (entered : g1.state1 = States.add ∨ g1.state1 = States.sub)
    (hv : ∀ x, (feed g1 x).max = v) :
    ∃ m, (hold_for (0, 0) m (hold_for ab n g1)).state1 = States.hold
      ∧ (∀ j, j < m → (hold_for (0, 0) j (hold_for ab n g1)).state1 ≠ States.hold)
      ∧ (hold_for (0, 0) m (hold_for ab n g1)).max = v := by
  have hw : ∀ x, (feed g1 x).state1 = States.wait := by
    intro x
    rcases entered with e | e
    · exact (feed_add g1 x e).1
    · exact (feed_sub g1 x e).1
  cases n with
  | zero =>
    refine ⟨2, ?_, ?_, ?_⟩
    · exact (feed_wait_released _ (hw (0, 0))).1
    · intro j hj
      have : j = 0 ∨ j = 1 := by omega
      rcases this with rfl | rfl
      · rcases entered with e | e <;> simp [hold_for, e]
      · show (feed g1 (0, 0)).state1 ≠ States.hold
        rw [hw (0, 0)]
        decide
    · exact ((feed_wait_released _ (hw (0, 0))).2).trans (hv (0, 0))
  | succ n =>
    obtain ⟨w1, w2⟩ := wait_stays ab h n (feed g1 ab) (hw ab)
    refine ⟨1, ?_, ?_, ?_⟩
    · exact (feed_wait_released _ w1).1
    · intro j hj
      have : j = 0 := by omega
      subst this
      simp [hold_for, w1]
    · exact ((feed_wait_released _ w1).2).trans (w2.trans (hv ab))

/-! ## Threshold tuning state machine: claims -/

/-- C4 (bounds): after any finite sequence of input pairs fed to `ChangeMax` from
the initial globals, the threshold `max` is within [400, 470] and `tuneFlag`
within [0, 7]; state `add` is only ever entered with `max + 10 <= 470` and
`tuneFlag + 1 <= 7`, state `sub` only with `max >= 410` and `tuneFlag >= 1`, so
neither unsigned counter wraps. -/
theorem C4_threshold_and_level_bounded (inputs : List (Nat × Nat)) :
    400 ≤ (run inputs Globals.init).max ∧ (run inputs Globals.init).max ≤ 470
    ∧ (run inputs Globals.init).tuneFlag ≤ 7
    ∧ ((run inputs Globals.init).state1 = States.add →
        (run inputs Globals.init).max + 10 ≤ 470
          ∧ (run inputs Globals.init).tuneFlag + 1 ≤ 7)
    ∧ ((run inputs Globals.init).state1 = States.sub →
        410 ≤ (run inputs Globals.init).max ∧ 1 ≤ (run inputs Globals.init).tuneFlag) := by
  obtain ⟨h1, h2, h3, h4, h5⟩ := run_inv inputs Globals.init init_inv
  refine ⟨by omega, by omega, h2, fun h => ?_, fun h => ?_⟩
  · have := h3 h
    omega
  · have := h4 h
    omega

/-- C5 (lock-step): in every state reached from the initial globals by any input
sequence, `max = 400 + 10 * tuneFlag`, and one more `ChangeMax` call with any
input pair either leaves `max` and `tuneFlag` unchanged, or raises `max` by 10
and `tuneFlag` by 1, or lowers `max` by 10 and `tuneFlag` by 1. -/
theorem C5_threshold_level_lock_step (inputs : List (Nat × Nat)) (ab : Nat × Nat) :
    (run inputs Globals.init).max = 400 + 10 * (run inputs Globals.init).tuneFlag
    ∧ (((feed (run inputs Globals.init) ab).max = (run inputs Globals.init).max
          ∧ (feed (run inputs Globals.init) ab).tuneFlag = (run inputs Globals.init).tuneFlag)
      ∨ ((feed (run inputs Globals.init) ab).max = (run inputs Globals.init).max + 10
          ∧ (feed (run inputs Globals.init) ab).tuneFlag
              = (run inputs Globals.init).tuneFlag + 1)
      ∨ ((feed (run inputs Globals.init) ab).max + 10 = (run inputs Globals.init).max
          ∧ (feed (run inputs Globals.init) ab).tuneFlag + 1
              = (run inputs Globals.init).tuneFlag)) := by
  obtain ⟨h1, h2, h3, h4, h5⟩ := run_inv inputs Globals.init init_inv
  refine ⟨h1, ?_⟩
  generalize run inputs Globals.init = g at h1 h2 h3 h4 h5
  unfold feed ChangeMax
  cases hs : g.state1 <;> simp only [hs] at h3 h4 h5 ⊢
  · left
    have := h5 trivial
    constructor <;> omega
  · left
    split_ifs <;> simp
  · right; left
    obtain ⟨e1, e2⟩ := add_no_wrap g.max g.tuneFlag h1 (h3 trivial)
    simp only [e1, e2]
    simp
  · right; right
    obtain ⟨e1, e2⟩ := sub_no_wrap g.max g.tuneFlag h1 h2 (h4 trivial)
    have := h4 trivial
    simp only [e1, e2]
    constructor <;> omega
  · left
    split_ifs <;> simp

/-- C6 (one step per gesture): from state `hold`, for every k >= 1, k calls of
`ChangeMax` with input A asserted alone followed by calls with both inputs
released up to the first call that returns to `hold` raise `max` by exactly 10
when `max < 470`; with input B asserted alone they lower it by exactly 10 when
`max > 400`. -/
theorem C6_one_step_per_gesture (g : Globals) (a k : Nat)
    (hs : g.state1 = States.hold) (ha : a ≠ 0) (hk : 1 ≤ k) (hr : g.max < 65536) :
    (g.max < 470 → ∃ m,
        (hold_for (0, 0) m (hold_for (a, 0) k g)).state1 = States.hold
        ∧ (∀ j, j < m → (hold_for (0, 0) j (hold_for (a, 0) k g)).state1 ≠ States.hold)
        ∧ (hold_for (0, 0) m (hold_for (a, 0) k g)).max = g.max + 10)
    ∧ (400 < g.max → ∃ m,
        (hold_for (0, 0) m (hold_for (0, a) k g)).state1 = States.hold
        ∧ (∀ j, j < m → (hold_for (0, 0) j (hold_for (0, a) k g)).state1 ≠ States.hold)
        ∧ (hold_for (0, 0) m (hold_for (0, a) k g)).max + 10 = g.max) := by
  obtain ⟨n, rfl⟩ : ∃ n, k = n + 1 := ⟨k - 1, by omega⟩
  constructor
  · intro hm
    obtain ⟨e1, e2⟩ := feed_hold_up g a hs ha hm
    have hv : ∀ x, (feed (feed g (a, 0)) x).max = g.max + 10 := by
      intro x
      rw [(feed_add _ x e1).2, e2]
      exact Nat.mod_eq_of_lt (by omega)
    exact gesture_ends (a, 0) (Or.inl ha) n (feed g (a, 0)) (g.max + 10) (Or.inl e1) hv
  · intro hm
    obtain ⟨e1, e2⟩ := feed_hold_down g a hs ha hm
    have hv : ∀ x, (feed (feed g (0, a)) x).max = g.max - 10 := by
      intro x
      rw [(feed_sub _ x e1).2, e2]
      omega
    obtain ⟨m, h1, h2, h3⟩ :=
      gesture_ends (0, a) (Or.inr ha) n (feed g (0, a)) (g.max - 10) (Or.inr e1) hv
    refine ⟨m, h1, h2, ?_⟩
    show (hold_for (0, 0) m (hold_for (0, a) n (feed g (0, a)))).max + 10 = g.max
    rw [h3]
    omega

/-- C6 at a concrete input: threshold 430 in `hold`, a gesture of 5 calls. -/
theorem C6_one_step_per_gesture_witness :
    holdAt430.state1 = States.hold ∧ (1 : Nat) ≠ 0 ∧ 1 ≤ 5 ∧ holdAt430.max < 65536
    ∧ (∃ m,
        (hold_for (0, 0) m (hold_for (1, 0) 5 holdAt430)).state1 = States.hold
        ∧ (∀ j, j < m → (hold_for (0, 0) j (hold_for (1, 0) 5 holdAt430)).state1 ≠ States.hold)
        ∧ (hold_for (0, 0) m (hold_for (1, 0) 5 holdAt430)).max = holdAt430.max + 10)
    ∧ (∃ m,
        (hold_for (0, 0) m (hold_for (0, 1) 5 holdAt430)).state1 = States.hold
        ∧ (∀ j, j < m → (hold_for (0, 0) j (hold_for (0, 1) 5 holdAt430)).state1 ≠ States.hold)
        ∧ (hold_for (0, 0) m (hold_for (0, 1) 5 holdAt430)).max + 10 = holdAt430.max) :=
  have h := C6_one_step_per_gesture holdAt430 1 5 rfl (by decide) (by decide) (by decide)
  ⟨rfl, by decide, by decide, by decide, h.1 (by decide), h.2 (by decide)⟩

/-- C7 (transitions of `hold`): one `ChangeMax` call in state `hold` changes
neither `max` nor `tuneFlag`; the next state is `add` iff B0 is asserted, B1 is
not and `max < 470`; `sub` iff B1 is asserted, B0 is not and `max > 400`; `hold`
otherwise. With `max = 400` and B1 asserted alone, and with both inputs
asserted, the state stays `hold`. -/
theorem C7_hold_transitions (g : Globals) (hs : g.state1 = States.hold) :
    (ChangeMax g).max = g.max ∧ (ChangeMax g).tuneFlag = g.tuneFlag
    ∧ ((ChangeMax g).state1 = States.add ↔ (g.B0 ≠ 0 ∧ g.B1 = 0 ∧ g.max < 470))
    ∧ ((ChangeMax g).state1 = States.sub ↔ (g.B1 ≠ 0 ∧ g.B0 = 0 ∧ g.max > 400))
    ∧ ((ChangeMax g).state1 = States.hold ↔
        (¬ (g.B0 ≠ 0 ∧ g.B1 = 0 ∧ g.max < 470) ∧ ¬ (g.B1 ≠ 0 ∧ g.B0 = 0 ∧ g.max > 400)))
    ∧ (g.max = 400 → g.B1 ≠ 0 → g.B0 = 0 → (ChangeMax g).state1 = States.hold)
    ∧ (g.B0 ≠ 0 → g.B1 ≠ 0 → (ChangeMax g).state1 = States.hold) := by
  unfold ChangeMax
  simp only [hs]
  by_cases hA : g.B0 = 0 <;> by_cases hB : g.B1 = 0 <;> by_cases h1 : g.max < 470 <;>
    by_cases h2 : 400 < g.max <;> simp [hA, hB, h1, h2] <;> omega

/-- C7 at end-to-end scenario 3: threshold 400, input B asserted alone. -/
theorem C7_hold_transitions_witness :
    scenario3.state1 = States.hold
    ∧ (ChangeMax scenario3).max = scenario3.max
    ∧ (ChangeMax scenario3).tuneFlag = scenario3.tuneFlag
    ∧ (ChangeMax scenario3).state1 = States.hold :=
  have h := C7_hold_transitions scenario3 rfl
  ⟨rfl, h.1, h.2.1, h.2.2.2.2.2.1 rfl (by decide) rfl⟩

/-! ## Indicator state machine: lemmas -/

theorem compareSample_eq (g : Globals) :
    compareSample g
      = { g with state2 := if g.ADC_num ≥ g.max then tuneStates.on else tuneStates.off } := by
  unfold compareSample
  split_ifs with h1 h2
  · rfl
  · rfl
  · omega

theorem pickPattern_eq (g : Globals) :
    pickPattern g
      = { g with tmpC := if g.tuneFlag ≤ 7 then levelMask g.tuneFlag else g.tmpC } := by
  cases g with
  | mk a c b0 b1 m t f s1 s2 =>
    simp only [pickPattern]
    rcases Nat.lt_or_ge t 8 with h | h
    · interval_cases t <;> simp [levelMask]
    · have h0 : t ≠ 0 := by omega
      have h1 : t ≠ 1 := by omega
      have h2 : t ≠ 2 := by omega
      have h3 : t ≠ 3 := by omega
      have h4 : t ≠ 4 := by omega
      have h5 : t ≠ 5 := by omega
      have h6 : t ≠ 6 := by omega
      have h7 : t ≠ 7 := by omega
      have h8 : ¬ t ≤ 7 := by omega
      simp [h0, h1, h2, h3, h4, h5, h6, h7, h8]

theorem TuneSM_off (g : Globals) (h : g.state2 = tuneStates.off) :
    TuneSM g = { g with
      tmpC := 0xFF
      LEDFlag := 0
      state2 := if g.ADC_num ≥ g.max then tuneStates.on else tuneStates.off } := by
  simp only [TuneSM, h, compareSample_eq]

theorem TuneSM_on (g : Globals) (h : g.state2 = tuneStates.on) :
    TuneSM g = { g with
      tmpC := if g.tuneFlag ≤ 7 then levelMask g.tuneFlag else g.tmpC
      LEDFlag := 1
      state2 := if g.ADC_num ≥ g.max then tuneStates.on else tuneStates.off } := by
  simp only [TuneSM, h, compareSample_eq, pickPattern_eq]

/-! ## Indicator state machine: claims -/

/-- C8, as the spec states it, fails: from state `off` with sample 450 and
threshold 400 one `TuneSM` evaluation leaves `LEDFlag` cleared although
sample >= threshold; from state `on` with sample 399 it leaves `LEDFlag` set
although sample < threshold. -/
theorem C8_flag_is_not_the_comparison :
    ¬ ((TuneSM offAbove).LEDFlag = 1 ↔ offAbove.ADC_num ≥ offAbove.max)
    ∧ ¬ ((TuneSM onBelow).LEDFlag = 1 ↔ onBelow.ADC_num ≥ onBelow.max) := by
  decide

/-- C8 (amended): for every sample, threshold and tune-level, one `TuneSM`
evaluation from state `off` clears `LEDFlag` and one from state `on` sets it to
1, so the flag is a function of the prior state alone; the comparison
sample >= threshold decides the next state, hence the flag written by the
following evaluation is set iff sample >= threshold held at this one. -/
theorem C8_flag_follows_prior_state (g : Globals) :
    (TuneSM { g with state2 := tuneStates.off }).LEDFlag = 0
    ∧ (TuneSM { g with state2 := tuneStates.on }).LEDFlag = 1
    ∧ (∀ sample thr lvl,
        ((TuneSM { TuneSM { g with state2 := tuneStates.off } with
            ADC_num := sample, max := thr, tuneFlag := lvl }).LEDFlag = 1
          ↔ g.ADC_num ≥ g.max)
        ∧ ((TuneSM { TuneSM { g with state2 := tuneStates.on } with
            ADC_num := sample, max := thr, tuneFlag := lvl }).LEDFlag = 1
          ↔ g.ADC_num ≥ g.max)) := by
  refine ⟨?_, ?_, ?_⟩
  · rw [TuneSM_off _ rfl]
  · rw [TuneSM_on _ rfl]
  · intro sample thr lvl
    by_cases h : g.ADC_num ≥ g.max
    · constructor
      · rw [TuneSM_off { g with state2 := tuneStates.off } rfl]
        simp only [h, if_true]
        rw [TuneSM_on _ rfl]
        simp
      · rw [TuneSM_on { g with state2 := tuneStates.on } rfl]
        simp only [h, if_true]
        rw [TuneSM_on _ rfl]
        simp
    · constructor
      · rw [TuneSM_off { g with state2 := tuneStates.off } rfl]
        simp only [h, if_false]
        rw [TuneSM_off _ rfl]
        simp
      · rw [TuneSM_on { g with state2 := tuneStates.on } rfl]
        simp only [h, if_false]
        rw [TuneSM_off _ rfl]
        simp

/-- C9, as the spec states it, fails: from state `off` with sample 450,
threshold 400 and tune-level 3 the pattern after one `TuneSM` evaluation is 0xFF,
not the level-3 mask 0xEF; from state `on` with sample 399, threshold 400 and
tune-level 0 the pattern is the level-0 mask 0x7F, not 0xFF. -/
theorem C9_pattern_is_not_chosen_by_comparison :
    (offAbove.ADC_num ≥ offAbove.max ∧ offAbove.tuneFlag = 3
      ∧ (TuneSM offAbove).tmpC = 0xFF ∧ (TuneSM offAbove).tmpC ≠ levelMask 3)
    ∧ (onBelow.ADC_num < onBelow.max
      ∧ (TuneSM onBelow).tmpC = 0x7F ∧ (TuneSM onBelow).tmpC ≠ 0xFF) := by
  decide

/-- C9 (amended): for every sample and threshold, one `TuneSM` evaluation from
state `off` leaves the pattern `tmpC` all-inactive (0xFF), and one from state
`on` leaves it at the mask of the current tune-level when that is in 0..7 (and
unchanged otherwise). So sample 399 with threshold 400 gives 0xFF from `off`,
and sample 450 with threshold 400 and tune-level 3 gives the level-3 mask 0xEF
from `on`. -/
theorem C9_pattern_follows_prior_state (g : Globals) :
    (TuneSM { g with state2 := tuneStates.off }).tmpC = 0xFF
    ∧ (TuneSM { g with state2 := tuneStates.on }).tmpC
        = (if g.tuneFlag ≤ 7 then levelMask g.tuneFlag else g.tmpC)
    ∧ (TuneSM { g with state2 := tuneStates.off, ADC_num := 399, max := 400 }).tmpC = 0xFF
    ∧ (TuneSM
        { g with state2 := tuneStates.on, ADC_num := 450, max := 400, tuneFlag := 3 }).tmpC
          = 0xEF := by
  refine ⟨?_, ?_, ?_, ?_⟩
  · rw [TuneSM_off _ rfl]
  · rw [TuneSM_on _ rfl]
  · rw [TuneSM_off _ rfl]
  · rw [TuneSM_on _ rfl]
    rfl

/-- C10 (next state): for every sample, threshold and tune-level, the state
after one `TuneSM` evaluation from `off` and from `on` alike is `on` if
sample >= threshold and `off` otherwise; from `start2` the next state is `off`
and `LEDFlag` is cleared. -/
theorem C10_next_state_from_comparison (g : Globals) :
    (TuneSM { g with state2 := tuneStates.off }).state2
        = (if g.ADC_num ≥ g.max then tuneStates.on else tuneStates.off)
    ∧ (TuneSM { g with state2 := tuneStates.on }).state2
        = (if g.ADC_num ≥ g.max then tuneStates.on else tuneStates.off)
    ∧ (TuneSM { g with state2 := tuneStates.start2 }).state2 = tuneStates.off
    ∧ (TuneSM { g with state2 := tuneStates.start2 }).LEDFlag = 0 := by
  refine ⟨?_, ?_, ?_, ?_⟩
  · rw [TuneSM_off _ rfl]
  · rw [TuneSM_on _ rfl]
  · rfl
  · rfl

theorem on_tmpC (g : Globals) (l : Nat) :
    (TuneSM { g with state2 := tuneStates.on, tuneFlag := l }).tmpC
      = if l ≤ 7 then levelMask l else g.tmpC := by
  rw [TuneSM_on _ rfl]

theorem lit_levelMask (l : Nat) (h : l ≤ 7) : lit (levelMask l) = [7 - l] := by
  interval_cases l <;> decide

/-- C11, as the spec states it, fails: the level-0 pattern lights position 7
only and the level-1 pattern lights position 6 only, so the position lit at
level 0 is no longer lit at level 1. -/
theorem C11_levels_do_not_accumulate :
    lit (onPattern 0) = [7] ∧ lit (onPattern 1) = [6]
    ∧ ¬ (∀ i, i ∈ lit (onPattern 0) → i ∈ lit (onPattern 1)) := by
  decide

/-- C11 (amended): in state `on`, for every tune-level L in 0..6 the level-L
pattern lights exactly one position, bit 7 - L, and the level-(L+1) pattern
lights exactly one position, bit 6 - L: the single lit position moves by one
per level and the position lit at level L is dark at level L + 1. -/
theorem C11_lit_position_moves (g : Globals) (L : Nat) (hL : L ≤ 6) :
    lit (TuneSM { g with state2 := tuneStates.on, tuneFlag := L }).tmpC = [7 - L]
    ∧ lit (TuneSM { g with state2 := tuneStates.on, tuneFlag := L + 1 }).tmpC = [6 - L]
    ∧ (7 - L) ∉ lit (TuneSM { g with state2 := tuneStates.on, tuneFlag := L + 1 }).tmpC := by
  rw [on_tmpC, on_tmpC, if_pos (by omega), if_pos (by omega),
    lit_levelMask L (by omega), lit_levelMask (L + 1) (by omega)]
  refine ⟨rfl, ?_, ?_⟩
  · rw [show 7 - (L + 1) = 6 - L by omega]
  · simp only [List.mem_singleton]
    omega

/-- C11 (amended) at tune-level 2. -/
theorem C11_lit_position_moves_witness :
    (2 : Nat) ≤ 6
    ∧ lit (TuneSM { Globals.init with state2 := tuneStates.on, tuneFlag := 2 }).tmpC = [7 - 2]
    ∧ lit (TuneSM { Globals.init with state2 := tuneStates.on, tuneFlag := 2 + 1 }).tmpC
        = [6 - 2]
    ∧ (7 - 2) ∉
        lit (TuneSM { Globals.init with state2 := tuneStates.on, tuneFlag := 2 + 1 }).tmpC :=
  ⟨by decide, C11_lit_position_moves Globals.init 2 (by decide)⟩

/-! ## Millisecond scheduler: lemmas -/

theorem succ_mod_cases (k M : Nat) (hM : 0 < M) :
    (k % M + 1 = M ∧ (k + 1) % M = 0) ∨ (k % M + 1 < M ∧ (k + 1) % M = k % M + 1) := by
  have hlt := Nat.mod_lt k hM
  have hk : k + 1 = M * (k / M) + (k % M + 1) := by
    have := Nat.div_add_mod k M
    omega
  rcases Nat.lt_or_ge (k % M + 1) M with h | h
  · right
    refine ⟨h, ?_⟩
    rw [hk, Nat.mul_add_mod, Nat.mod_eq_of_lt h]
  · left
    have e : k % M + 1 = M := by omega
    refine ⟨e, ?_⟩
    rw [hk, e, Nat.mul_add_mod, Nat.mod_self]

/-- One tick from a countdown value of 1: the flag is raised and the countdown
reloaded. -/
theorem tick_at_one (t : Timer) (h : t._avr_timer_cntcurr = 1) :
    TIMER1_COMPA_vect t
      = { TimerFlag := 1, _avr_timer_M := t._avr_timer_M,
          _avr_timer_cntcurr := t._avr_timer_M } := by
  simp [TIMER1_COMPA_vect, TimerISR, h]

/-- One tick from a countdown value of 2 or more (below 2^32): the countdown
drops by one and the flag is left as it is. -/
theorem tick_above_one (t : Timer) (h1 : 2 ≤ t._avr_timer_cntcurr)
    (h2 : t._avr_timer_cntcurr < 4294967296) :
    TIMER1_COMPA_vect t = { t with _avr_timer_cntcurr := t._avr_timer_cntcurr - 1 } := by
  have e : (t._avr_timer_cntcurr + 4294967295) % 4294967296 = t._avr_timer_cntcurr - 1 := by
    omega
  have ne : t._avr_timer_cntcurr - 1 ≠ 0 := by omega
  simp [TIMER1_COMPA_vect, e, ne]

/-- One tick from a countdown value of 0: the countdown wraps to 2^32 - 1 and
the flag is left as it is. -/
theorem tick_at_zero (t : Timer) (h : t._avr_timer_cntcurr = 0) :
    TIMER1_COMPA_vect t = { t with _avr_timer_cntcurr := 4294967295 } := by
  simp [TIMER1_COMPA_vect, h]

theorem served_fields (M : Nat) (t : Timer) (h1 : 1 ≤ M) (h2 : M < 4294967296) (k : Nat) :
    (served k (TimerSet M t))._avr_timer_M = M
      ∧ (served k (TimerSet M t))._avr_timer_cntcurr = M - k % M := by
  have hM : M % 4294967296 = M := Nat.mod_eq_of_lt h2
  induction k with
  | zero =>
    simp only [served, TimerSet, hM]
    simp
  | succ k ih =>
    obtain ⟨ihM, ihc⟩ := ih
    have hlt := Nat.mod_lt k h1
    have hb : (served k (TimerSet M t))._avr_timer_cntcurr < 4294967296 := by
      rw [ihc]
      exact Nat.lt_of_le_of_lt (Nat.sub_le _ _) h2
    show (clearFlag (TIMER1_COMPA_vect (served k (TimerSet M t))))._avr_timer_M = M
      ∧ (clearFlag (TIMER1_COMPA_vect (served k (TimerSet M t))))._avr_timer_cntcurr
          = M - (k + 1) % M
    clear hM h2
    rcases succ_mod_cases k M h1 with ⟨a, b⟩ | ⟨a, b⟩
    · have c1 : (served k (TimerSet M t))._avr_timer_cntcurr = 1 := by
        rw [ihc]
        omega
      rw [tick_at_one _ c1, b]
      exact ⟨ihM, ihM⟩
    · have c2 : 2 ≤ (served k (TimerSet M t))._avr_timer_cntcurr := by
        rw [ihc]
        omega
      rw [tick_above_one _ c2 hb, b]
      refine ⟨ihM, ?_⟩
      show (served k (TimerSet M t))._avr_timer_cntcurr - 1 = M - (k % M + 1)
      rw [ihc]
      omega

theorem raisedAt_iff (M : Nat) (t : Timer) (h1 : 1 ≤ M) (h2 : M < 4294967296) (k : Nat) :
    raisedAt (TimerSet M t) (k + 1) = true ↔ M ∣ k + 1 := by
  obtain ⟨hm, hc⟩ := served_fields M t h1 h2 k
  have hlt := Nat.mod_lt k h1
  have hc2 : (clearFlag (served k (TimerSet M t)))._avr_timer_cntcurr = M - k % M := hc
  have hb : (clearFlag (served k (TimerSet M t)))._avr_timer_cntcurr < 4294967296 := by
    rw [hc2]
    exact Nat.lt_of_le_of_lt (Nat.sub_le _ _) h2
  clear h2
  simp only [raisedAt, Nat.add_sub_cancel, decide_eq_true_eq, Nat.dvd_iff_mod_eq_zero]
  rcases succ_mod_cases k M h1 with ⟨a, b⟩ | ⟨a, b⟩
  · have c1 : (clearFlag (served k (TimerSet M t)))._avr_timer_cntcurr = 1 := by
      rw [hc2]
      omega
    rw [tick_at_one _ c1]
    exact ⟨fun _ => b, fun _ => rfl⟩
  · have c2 : 2 ≤ (clearFlag (served k (TimerSet M t)))._avr_timer_cntcurr := by
      rw [hc2]
      omega
    rw [tick_above_one _ c2 hb, b]
    constructor
    · intro h
      have h0 : (0 : Nat) = 1 := h
      exact absurd h0 (by decide)
    · intro h
      omega

theorem range_filter_dvd_length (M : Nat) (p : Nat → Bool)
    (hp : ∀ k, p k = true ↔ M ∣ k + 1) (n : Nat) :
    ((List.range n).filter p).length = n / M := by
  induction n with
  | zero => simp
  | succ n ih =>
    rw [List.range_succ, List.filter_append, List.length_append, ih, Nat.succ_div]
    by_cases h : M ∣ n + 1
    · simp [h, (hp n).2 h]
    · have : p n = false := by
        cases hv : p n with
        | false => rfl
        | true => exact absurd ((hp n).1 hv) h
      simp [h, this]

theorem raise_reloads (M : Nat) (t : Timer) (h1 : 1 ≤ M) (h2 : M < 4294967296) (k : Nat)
    (h : raisedAt (TimerSet M t) (k + 1) = true) :
    (TIMER1_COMPA_vect (clearFlag (served k (TimerSet M t))))._avr_timer_cntcurr = M := by
  have hd := (raisedAt_iff M t h1 h2 k).1 h
  obtain ⟨hm, hc⟩ := served_fields M t h1 h2 k
  have hlt := Nat.mod_lt k h1
  have hc2 : (clearFlag (served k (TimerSet M t)))._avr_timer_cntcurr = M - k % M := hc
  clear h2
  rcases succ_mod_cases k M h1 with ⟨a, b⟩ | ⟨a, b⟩
  · have c1 : (clearFlag (served k (TimerSet M t)))._avr_timer_cntcurr = 1 := by
      rw [hc2]
      omega
    rw [tick_at_one _ c1]
    exact hm
  · rw [Nat.dvd_iff_mod_eq_zero, b] at hd
    omega

theorem ticks_add (a b : Nat) (t : Timer) : ticks (a + b) t = ticks a (ticks b t) := by
  induction a with
  | zero => simp [ticks]
  | succ a ih => rw [Nat.succ_add, ticks, ticks, ih]

theorem ticks_countdown (j : Nat) (t : Timer) (h : j < t._avr_timer_cntcurr)
    (hb : t._avr_timer_cntcurr < 4294967296) :
    ticks j t = { t with _avr_timer_cntcurr := t._avr_timer_cntcurr - j } := by
  induction j with
  | zero => rfl
  | succ j ih =>
    rw [ticks, ih (by omega)]
    rw [tick_above_one _ (by show 2 ≤ t._avr_timer_cntcurr - j; omega)
      (by show t._avr_timer_cntcurr - j < 4294967296; omega)]
    show ({ t with _avr_timer_cntcurr := t._avr_timer_cntcurr - j - 1 } : Timer) = _
    rw [Nat.sub_sub]

theorem ticks_flag_stays (n : Nat) (t : Timer) (h : t.TimerFlag = 1) :
    (ticks n t).TimerFlag = 1 := by
  induction n with
  | zero => exact h
  | succ n ih =>
    simp only [ticks, TIMER1_COMPA_vect, TimerISR]
    split_ifs
    · rfl
    · exact ih

theorem ticks_flag_bit (n : Nat) (t : Timer) (h : t.TimerFlag = 0 ∨ t.TimerFlag = 1) :
    (ticks n t).TimerFlag = 0 ∨ (ticks n t).TimerFlag = 1 := by
  induction n with
  | zero => exact h
  | succ n ih =>
    simp only [ticks, TIMER1_COMPA_vect, TimerISR]
    split_ifs
    · right
      rfl
    · exact ih

theorem ticks_fields (M : Nat) (t : Timer) (h1 : 1 ≤ M) (h2 : M < 4294967296) (k : Nat) :
    (ticks k (TimerSet M t))._avr_timer_M = M
      ∧ (ticks k (TimerSet M t))._avr_timer_cntcurr = M - k % M
      ∧ (M ≤ k → (ticks k (TimerSet M t)).TimerFlag = 1) := by
  have hM : M % 4294967296 = M := Nat.mod_eq_of_lt h2
  induction k with
  | zero =>
    refine ⟨?_, ?_, fun h => ?_⟩
    · simp [ticks, TimerSet, hM]
    · simp [ticks, TimerSet, hM]
    · exact absurd (Nat.le_trans h1 h) (by decide)
  | succ k ih =>
    obtain ⟨ihM, ihc, ihf⟩ := ih
    have hlt := Nat.mod_lt k h1
    have hb : (ticks k (TimerSet M t))._avr_timer_cntcurr < 4294967296 := by
      rw [ihc]
      exact Nat.lt_of_le_of_lt (Nat.sub_le _ _) h2
    show (TIMER1_COMPA_vect (ticks k (TimerSet M t)))._avr_timer_M = M
      ∧ (TIMER1_COMPA_vect (ticks k (TimerSet M t)))._avr_timer_cntcurr = M - (k + 1) % M
      ∧ (M ≤ k + 1 → (TIMER1_COMPA_vect (ticks k (TimerSet M t))).TimerFlag = 1)
    clear hM h2
    rcases succ_mod_cases k M h1 with ⟨a, b⟩ | ⟨a, b⟩
    · have c1 : (ticks k (TimerSet M t))._avr_timer_cntcurr = 1 := by
        rw [ihc]
        omega
      rw [tick_at_one _ c1, b]
      exact ⟨ihM, ihM, fun _ => rfl⟩
    · have c2 : 2 ≤ (ticks k (TimerSet M t))._avr_timer_cntcurr := by
        rw [ihc]
        omega
      rw [tick_above_one _ c2 hb, b]
      refine ⟨ihM, ?_, fun h => ?_⟩
      · show (ticks k (TimerSet M t))._avr_timer_cntcurr - 1 = M - (k % M + 1)
        rw [ihc]
        omega
      · have hk : M ≤ k := by
          rcases Nat.lt_or_ge k M with hlt2 | hge
          · have : k % M = k := Nat.mod_eq_of_lt hlt2
            omega
          · exact hge
        exact ihf hk

/-! ## Millisecond scheduler: claims -/

/-- C12 (period): after `TimerSet(M)` with 1 <= M < 2^32, the consumer clearing
the flag after each tick, the handler raises the flag on the k-th tick (k >= 1)
if and only if M divides k; the first raise is on the M-th tick; over any n
ticks the flag is raised n / M times; and every raise reloads the countdown
to M. -/
theorem C12_flag_every_M_ticks (M : Nat) (t : Timer) (h1 : 1 ≤ M) (h2 : M < 4294967296) :
    (∀ k, 1 ≤ k → (raisedAt (TimerSet M t) k = true ↔ M ∣ k))
    ∧ raisedAt (TimerSet M t) M = true
    ∧ (∀ k, 1 ≤ k → k < M → raisedAt (TimerSet M t) k = false)
    ∧ (∀ n, ((List.range n).filter fun k => raisedAt (TimerSet M t) (k + 1)).length = n / M)
    ∧ (∀ k, raisedAt (TimerSet M t) (k + 1) = true →
        (TIMER1_COMPA_vect (clearFlag (served k (TimerSet M t))))._avr_timer_cntcurr = M) := by
  have key : ∀ k, 1 ≤ k → (raisedAt (TimerSet M t) k = true ↔ M ∣ k) := by
    intro k hk
    obtain ⟨j, rfl⟩ : ∃ j, k = j + 1 := ⟨k - 1, by omega⟩
    exact raisedAt_iff M t h1 h2 j
  refine ⟨key, (key M h1).2 (dvd_refl M), fun k hk hlt => ?_,
    range_filter_dvd_length M _ (raisedAt_iff M t h1 h2), raise_reloads M t h1 h2⟩
  cases hv : raisedAt (TimerSet M t) k with
  | false => rfl
  | true =>
    have hd := (key k hk).1 hv
    have := Nat.le_of_dvd (by omega) hd
    omega

/-- C12 at the period `main` configures, `TimerSet(100)`. -/
theorem C12_flag_every_M_ticks_witness :
    (1 : Nat) ≤ 100 ∧ (100 : Nat) < 4294967296
    ∧ (∀ k, 1 ≤ k → (raisedAt (TimerSet 100 Timer.init) k = true ↔ 100 ∣ k))
    ∧ raisedAt (TimerSet 100 Timer.init) 100 = true
    ∧ (∀ k, 1 ≤ k → k < 100 → raisedAt (TimerSet 100 Timer.init) k = false)
    ∧ (∀ n, ((List.range n).filter fun k =>
        raisedAt (TimerSet 100 Timer.init) (k + 1)).length = n / 100)
    ∧ (∀ k, raisedAt (TimerSet 100 Timer.init) (k + 1) = true →
        (TIMER1_COMPA_vect (clearFlag (served k (TimerSet 100 Timer.init))))._avr_timer_cntcurr
          = 100) :=
  ⟨by decide, by decide, C12_flag_every_M_ticks 100 Timer.init (by decide) (by decide)⟩

/-- C13 (one flag cell): the tick handler leaves `TimerFlag` as it is or sets it
to 1, so it never clears it; once the flag is 1 it stays 1 over any number of
ticks, and `TimerISR` on a raised flag changes nothing (no queue); a flag that
is 0 or 1 stays 0 or 1; after `TimerSet(M)` (1 <= M < 2^32) and any n >= M ticks
with no clear by the consumer the flag is exactly 1; `TimerSet`, `TimerOn` and
`TimerOff` do not touch the flag; the consumer's clear sets it to 0. -/
theorem C13_flag_is_one_cell (t : Timer) :
    ((TIMER1_COMPA_vect t).TimerFlag = t.TimerFlag ∨ (TIMER1_COMPA_vect t).TimerFlag = 1)
    ∧ (t.TimerFlag = 1 → ∀ n, (ticks n t).TimerFlag = 1)
    ∧ (TimerISR t).TimerFlag = 1 ∧ TimerISR (TimerISR t) = TimerISR t
    ∧ ((t.TimerFlag = 0 ∨ t.TimerFlag = 1) →
        ∀ n, (ticks n t).TimerFlag = 0 ∨ (ticks n t).TimerFlag = 1)
    ∧ (∀ M n, 1 ≤ M → M < 4294967296 → M ≤ n →
        (ticks n (TimerSet M (clearFlag t))).TimerFlag = 1)
    ∧ (∀ M, (TimerSet M t).TimerFlag = t.TimerFlag)
    ∧ (TimerOn t).TimerFlag = t.TimerFlag ∧ (TimerOff t).TimerFlag = t.TimerFlag
    ∧ (clearFlag t).TimerFlag = 0 ∧ Timer.init.TimerFlag = 0 := by
  refine ⟨?_, fun h n => ticks_flag_stays n t h, rfl, rfl, fun h n => ticks_flag_bit n t h,
    fun M n h1 h2 h3 => (ticks_fields M (clearFlag t) h1 h2 n).2.2 h3, fun _ => rfl, rfl, rfl,
    rfl, rfl⟩
  simp only [TIMER1_COMPA_vect, TimerISR]
  split_ifs
  · right
    rfl
  · left
    rfl

/-- C19 (`TimerSet(0)`): with the flag clear, after `TimerSet(0)` the first tick
wraps the 32-bit countdown to 2^32 - 1 and does not raise the flag; the flag is
still clear after any k < 2^32 ticks, and it is raised by tick 2^32, which
reloads the countdown with 0. -/
theorem C19_TimerSet_zero_period (t : Timer) :
    (TIMER1_COMPA_vect (TimerSet 0 (clearFlag t)))._avr_timer_cntcurr = 4294967295
    ∧ (TIMER1_COMPA_vect (TimerSet 0 (clearFlag t))).TimerFlag = 0
    ∧ (∀ k, k < 4294967296 → (ticks k (TimerSet 0 (clearFlag t))).TimerFlag = 0)
    ∧ (ticks 4294967296 (TimerSet 0 (clearFlag t))).TimerFlag = 1
    ∧ (ticks 4294967296 (TimerSet 0 (clearFlag t)))._avr_timer_cntcurr = 0 := by
  have first : TIMER1_COMPA_vect (TimerSet 0 (clearFlag t))
      = { TimerFlag := 0, _avr_timer_M := 0, _avr_timer_cntcurr := 4294967295 } :=
    tick_at_zero _ rfl
  have later : ∀ j, j < 4294967295 → ticks (j + 1) (TimerSet 0 (clearFlag t))
      = { TimerFlag := 0, _avr_timer_M := 0, _avr_timer_cntcurr := 4294967295 - j } := by
    intro j hj
    rw [ticks_add j 1]
    show ticks j (TIMER1_COMPA_vect (TimerSet 0 (clearFlag t))) = _
    rw [first]
    exact ticks_countdown j _ hj (by decide)
  refine ⟨by rw [first], by rw [first], fun k hk => ?_, ?_, ?_⟩
  · cases k with
    | zero => rfl
    | succ j => rw [later j (by omega)]
  · rw [show (4294967296 : Nat) = 4294967294 + 1 + 1 from rfl, ticks, later 4294967294 (by decide)]
    rw [tick_at_one _ rfl]
  · rw [show (4294967296 : Nat) = 4294967294 + 1 + 1 from rfl, ticks, later 4294967294 (by decide)]
    rw [tick_at_one _ rfl]

/-! ## Protocol encoder: timing claims -/

theorem riseTimes_append (xs ys : List Ev) :
    riseTimes (xs ++ ys) = riseTimes xs ++ riseTimes ys := by
  induction xs with
  | nil => rfl
  | cons e es ih => cases e <;> simp [riseTimes, ih]

theorem gaps_shift (c : Nat) (l : List Nat) : gaps (l.map fun o => c + o) = gaps l := by
  induction l using gaps.induct with
  | case1 a b rest ih =>
    simp only [List.map_cons, gaps] at ih ⊢
    rw [ih, Nat.add_sub_add_left]
  | case2 l h =>
    match l, h with
    | [], _ => rfl
    | [a], _ => rfl
    | a :: b :: rest, h => exact absurd rfl (h a b rest)

/-- Rising edges and cycles of a run of `n` calls of `send_led_strip_bit`: the
calls start `bitCycles + 3` cycles apart. -/
theorem sendBits_rises (clk : Clock) (n : Nat) (s : Avr) :
    riseTimes (sendBits clk n s).trace
        = riseTimes s.trace ++ (List.range n).map
            (fun j => s.cycles + 3 + riseAt clk + j * (bitCycles clk + 3))
      ∧ (sendBits clk n s).cycles = s.cycles + n * (bitCycles clk + 3) := by
  induction n generalizing s with
  | zero => simp [sendBits]
  | succ n ih =>
    obtain ⟨h1, h2⟩ := ih (rcall (send_led_strip_bit clk) s)
    simp only [rcall, send_led_strip_bit_eq, tick] at h1 h2
    constructor
    · show riseTimes (sendBits clk n (rcall (send_led_strip_bit clk) s)).trace = _
      simp only [rcall, send_led_strip_bit_eq, tick]
      rw [h1, riseTimes_append, List.range_succ_eq_map, List.map_cons, List.map_map]
      simp only [riseTimes, List.append_assoc, List.singleton_append, Nat.zero_mul,
        Nat.add_zero]
      congr 2
      apply List.map_congr_left
      intro j _
      simp only [Function.comp, Nat.succ_eq_add_one]
      rw [Nat.add_mul]
      omega
    · show (sendBits clk n (rcall (send_led_strip_bit clk) s)).cycles = _
      simp only [rcall, send_led_strip_bit_eq, tick]
      rw [h2, Nat.add_mul]
      omega

theorem byte_rises (clk : Clock) (s : Avr) :
    riseTimes (rcall (send_led_strip_byte clk) s).trace
        = riseTimes s.trace ++ (List.range 8).map
            (fun j => s.cycles + 6 + riseAt clk + j * (bitCycles clk + 3))
      ∧ (rcall (send_led_strip_byte clk) s).cycles
        = s.cycles + 7 + 8 * (bitCycles clk + 3) := by
  obtain ⟨h1, h2⟩ := sendBits_rises clk 8 (tick 3 s)
  constructor
  · show riseTimes (sendBits clk 8 (tick 3 s)).trace = _
    rw [h1]
    rfl
  · show (sendBits clk 8 (tick 3 s)).cycles + 4 = _
    rw [h2]
    show s.cycles + 3 + 8 * (bitCycles clk + 3) + 4 = _
    omega

/-- Rising edges of one pass of `send_color` at 20 MHz from a state with an
empty log. -/
theorem send_color_rises20 (s : Avr) (h : s.trace = []) :
    riseTimes (send_color Clock.f20MHz s).trace
      = riseOffsets20.map fun o => s.cycles + o := by
  have t1 : ∀ x : Avr, (ld_postinc x).trace = x.trace := fun _ => rfl
  have t2 : ∀ x : Avr, (ld_plain x).trace = x.trace := fun _ => rfl
  have t3 : ∀ x : Avr, (ld_predec x).trace = x.trace := fun _ => rfl
  have t4 : ∀ x : Avr, (rjmp x).trace = x.trace := fun _ => rfl
  have c1 : ∀ x : Avr, (ld_postinc x).cycles = x.cycles + 2 := fun _ => rfl
  have c2 : ∀ x : Avr, (ld_plain x).cycles = x.cycles + 2 := fun _ => rfl
  have c3 : ∀ x : Avr, (ld_predec x).cycles = x.cycles + 2 := fun _ => rfl
  simp only [send_color, t1, t2, t3, t4, c1, c2, c3, (byte_rises _ _).1, (byte_rises _ _).2,
    h, riseTimes, List.nil_append, riseAt, bitCycles]
  simp only [List.range_succ, List.range_zero, List.nil_append, List.cons_append,
    List.map_cons, List.map_nil, riseOffsets20, List.append_assoc, List.cons.injEq, and_true]

/-- C14 (equal slots): at each of the three clocks, `send_led_strip_bit` spends
the same number of cycles on a 0 bit and on a 1 bit (14, 19 and 23 cycles at 8,
16 and 20 MHz, its `ret` included); both executions raise the line at the same
cycle and differ in the cycle at which they lower it, the line staying high
strictly longer for a 1 (3 against 7, 6 against 13, 8 against 17 cycles). -/
theorem C14_same_slot_longer_high (clk : Clock) (s : Avr) (x y : Nat)
    (hx : msb x = false) (hy : msb y = true) :
    (send_led_strip_bit clk { s with tmp := x }).cycles
        = (send_led_strip_bit clk { s with tmp := y }).cycles
    ∧ (send_led_strip_bit clk { s with tmp := x }).cycles = s.cycles + bitCycles clk
    ∧ (send_led_strip_bit clk { s with tmp := x }).trace
        = s.trace ++ [Ev.high (s.cycles + riseAt clk),
            Ev.low (s.cycles + riseAt clk + highCycles clk false)]
    ∧ (send_led_strip_bit clk { s with tmp := y }).trace
        = s.trace ++ [Ev.high (s.cycles + riseAt clk),
            Ev.low (s.cycles + riseAt clk + highCycles clk true)]
    ∧ highCycles clk false < highCycles clk true
    ∧ (send_led_strip_bit clk { s with tmp := x }).line = false
    ∧ (send_led_strip_bit clk { s with tmp := y }).line = false
    ∧ (bitCycles clk, highCycles clk false, highCycles clk true)
        = (match clk with
          | Clock.f8MHz => (14, 3, 7)
          | Clock.f16MHz => (19, 6, 13)
          | Clock.f20MHz => (23, 8, 17)) := by
  rw [send_led_strip_bit_eq, send_led_strip_bit_eq]
  refine ⟨rfl, rfl, ?_, ?_, ?_, rfl, rfl, ?_⟩
  · show s.trace ++ [Ev.high (s.cycles + riseAt clk),
      Ev.low (s.cycles + riseAt clk + highCycles clk (msb x))] = _
    rw [hx]
  · show s.trace ++ [Ev.high (s.cycles + riseAt clk),
      Ev.low (s.cycles + riseAt clk + highCycles clk (msb y))] = _
    rw [hy]
  · cases clk <;> decide
  · cases clk <;> rfl

/-- C14 at 8 MHz, for the bytes 0x00 and 0xFF in an idle machine. -/
theorem C14_same_slot_longer_high_witness :
    msb 0 = false ∧ msb 255 = true
    ∧ (send_led_strip_bit F_CPU { idle with tmp := 0 }).cycles
        = (send_led_strip_bit F_CPU { idle with tmp := 255 }).cycles
    ∧ (send_led_strip_bit F_CPU { idle with tmp := 0 }).trace = [Ev.high 3, Ev.low 6]
    ∧ (send_led_strip_bit F_CPU { idle with tmp := 255 }).trace = [Ev.high 3, Ev.low 10] :=
  have h := C14_same_slot_longer_high F_CPU idle 0 255 (by decide) (by decide)
  ⟨by decide, by decide, h.1, h.2.2.1, h.2.2.2.1⟩

/-- C15, as the spec states it, fails: at 20 MHz, in one pass of `send_color`
the rising edges of the 24 bits are 1300 ns apart inside each byte, but the
slot that ends the first byte lasts 1750 ns and the slot that ends the second
byte lasts 1950 ns, call to call. -/
theorem C15_slots_at_byte_boundaries_are_longer :
    (gaps (riseTimes (send_color Clock.f20MHz (idle.atCall [⟨255, 0, 0⟩])).trace)).map
        (nsOf Clock.f20MHz)
      = [1300, 1300, 1300, 1300, 1300, 1300, 1300, 1750,
         1300, 1300, 1300, 1300, 1300, 1300, 1300, 1950,
         1300, 1300, 1300, 1300, 1300, 1300, 1300]
    ∧ ¬ (∀ g ∈ gaps (riseTimes (send_color Clock.f20MHz (idle.atCall [⟨255, 0, 0⟩])).trace),
          nsOf Clock.f20MHz g = 1300) := by
  rw [send_color_rises20 _ rfl, gaps_shift]
  decide

/-- C15 (amended): at 20 MHz one cycle lasts 50 ns; the line stays high 400 ns
for a 0 bit and 850 ns for a 1 bit; every `rcall send_led_strip_bit` takes 26
cycles, 1300 ns, from the call to its return, whatever the bit, so the rising
edges of two consecutive calls, and of the eight bits of one byte, are 1300 ns
apart. Between the last bit of a byte and the first bit of the next byte of the
same color the `ret`, `ld` and `rcall` of the caller add cycles: that slot lasts
1750 ns after the first byte and 1950 ns after the second. -/
theorem C15_timing_at_20MHz (s : Avr) :
    nsOf Clock.f20MHz 1 = 50
    ∧ nsOf Clock.f20MHz ((rcall (send_led_strip_bit Clock.f20MHz) s).cycles - s.cycles) = 1300
    ∧ (∃ a b, (rcall (send_led_strip_bit Clock.f20MHz) s).trace
          = s.trace ++ [Ev.high a, Ev.low b]
        ∧ nsOf Clock.f20MHz (b - a) = if msb s.tmp then 850 else 400)
    ∧ (∃ a b a2 b2,
        (rcall (send_led_strip_bit Clock.f20MHz)
            (rcall (send_led_strip_bit Clock.f20MHz) s)).trace
          = s.trace ++ [Ev.high a, Ev.low b, Ev.high a2, Ev.low b2]
        ∧ nsOf Clock.f20MHz (a2 - a) = 1300)
    ∧ (gaps (riseTimes
          (rcall (send_led_strip_byte Clock.f20MHz) { s with trace := [] }).trace)).map
        (nsOf Clock.f20MHz)
      = [1300, 1300, 1300, 1300, 1300, 1300, 1300]
    ∧ (gaps (riseTimes (send_color Clock.f20MHz { s with trace := [] }).trace)).map
        (nsOf Clock.f20MHz)
      = [1300, 1300, 1300, 1300, 1300, 1300, 1300, 1750,
         1300, 1300, 1300, 1300, 1300, 1300, 1300, 1950,
         1300, 1300, 1300, 1300, 1300, 1300, 1300] := by
  refine ⟨by decide, ?_, ?_, ?_, ?_, ?_⟩
  · simp only [rcall, send_led_strip_bit_eq, tick, bitCycles]
    rw [show s.cycles + 3 + 23 - s.cycles = 26 by omega]
    decide
  · refine ⟨s.cycles + 3 + riseAt Clock.f20MHz,
      s.cycles + 3 + riseAt Clock.f20MHz + highCycles Clock.f20MHz (msb s.tmp), ?_, ?_⟩
    · simp only [rcall, send_led_strip_bit_eq, tick]
    · rw [Nat.add_sub_cancel_left]
      cases msb s.tmp <;> decide
  · refine ⟨s.cycles + 3 + riseAt Clock.f20MHz,
      s.cycles + 3 + riseAt Clock.f20MHz + highCycles Clock.f20MHz (msb s.tmp),
      s.cycles + 3 + bitCycles Clock.f20MHz + 3 + riseAt Clock.f20MHz,
      s.cycles + 3 + bitCycles Clock.f20MHz + 3 + riseAt Clock.f20MHz
        + highCycles Clock.f20MHz (msb (rolTmp s.tmp s.carry)), ?_, ?_⟩
    · simp only [rcall, send_led_strip_bit_eq, tick, List.append_assoc, List.cons_append,
        List.nil_append, rolTmp]
    · simp only [riseAt, bitCycles]
      rw [show s.cycles + 3 + 23 + 3 + 2 - (s.cycles + 3 + 2) = 26 by omega]
      decide
  · rw [(byte_rises Clock.f20MHz { s with trace := [] }).1]
    have e : (List.range 8).map
        (fun j => s.cycles + 6 + riseAt Clock.f20MHz + j * (bitCycles Clock.f20MHz + 3))
        = [8, 34, 60, 86, 112, 138, 164, 190].map fun o => s.cycles + o := by
      simp only [List.range_succ, List.range_zero, List.nil_append, List.cons_append,
        List.map_cons, List.map_nil, riseAt, bitCycles]
    show (gaps (riseTimes [] ++ (List.range 8).map
      (fun j => s.cycles + 6 + riseAt Clock.f20MHz + j * (bitCycles Clock.f20MHz + 3)))).map
        (nsOf Clock.f20MHz) = _
    rw [e, riseTimes, List.nil_append, gaps_shift]
    decide
  · rw [send_color_rises20 _ rfl]
    show (gaps (riseOffsets20.map fun o => s.cycles + o)).map (nsOf Clock.f20MHz) = _
    rw [gaps_shift]
    decide

/-! ## Indicator state machine: further claims -/

theorem levelMask_eq (l : Nat) (h : l ≤ 7) : levelMask l = 255 - 2 ^ (7 - l) := by
  interval_cases l <;> rfl

theorem levelMask_ne_all_off (l : Nat) (h : l ≤ 7) : levelMask l ≠ 0xFF := by
  interval_cases l <;> decide

/-- C17 (one-evaluation lag): from state `off` or `on`, the flag `TuneSM` writes
is 1 exactly when the state before the evaluation was `on`; after two
consecutive evaluations on the same sample, threshold and tune-level (0..7) the
flag is 1 iff sample >= threshold, and the pattern is the tune-level mask when
sample >= threshold and 0xFF otherwise (the mask never equals 0xFF). -/
theorem C17_flag_lags_one_evaluation (g : Globals)
    (hs : g.state2 = tuneStates.off ∨ g.state2 = tuneStates.on) (hl : g.tuneFlag ≤ 7) :
    ((TuneSM g).LEDFlag = 1 ↔ g.state2 = tuneStates.on)
    ∧ ((TuneSM g).LEDFlag = 0 ↔ g.state2 = tuneStates.off)
    ∧ (TuneSM g).ADC_num = g.ADC_num ∧ (TuneSM g).max = g.max
    ∧ (TuneSM g).tuneFlag = g.tuneFlag
    ∧ ((TuneSM (TuneSM g)).LEDFlag = 1 ↔ g.ADC_num ≥ g.max)
    ∧ (TuneSM (TuneSM g)).tmpC = (if g.ADC_num ≥ g.max then levelMask g.tuneFlag else 0xFF)
    ∧ ((TuneSM (TuneSM g)).tmpC = levelMask g.tuneFlag ↔ g.ADC_num ≥ g.max) := by
  have hne := levelMask_ne_all_off g.tuneFlag hl
  rcases hs with h | h
  · rw [TuneSM_off g h]
    by_cases hc : g.ADC_num ≥ g.max
    · simp only [hc, if_true]
      rw [TuneSM_on _ rfl]
      simp [h, hl, hc]
    · simp only [hc, if_false]
      rw [TuneSM_off _ rfl]
      simp [h, hc]
      exact fun e => hne e.symm
  · rw [TuneSM_on g h]
    by_cases hc : g.ADC_num ≥ g.max
    · simp only [hc, if_true]
      rw [TuneSM_on _ rfl]
      simp [h, hl, hc]
    · simp only [hc, if_false]
      rw [TuneSM_off _ rfl]
      simp [h, hc]
      exact fun e => hne e.symm

/-- C17 at sample 450, threshold 400, tune-level 3, from state `off`. -/
theorem C17_flag_lags_one_evaluation_witness :
    (offAbove.state2 = tuneStates.off ∨ offAbove.state2 = tuneStates.on)
    ∧ offAbove.tuneFlag ≤ 7
    ∧ (TuneSM offAbove).LEDFlag = 0
    ∧ (TuneSM (TuneSM offAbove)).LEDFlag = 1
    ∧ (TuneSM (TuneSM offAbove)).tmpC = 0xEF :=
  have h := C17_flag_lags_one_evaluation offAbove (Or.inl rfl) (by decide)
  ⟨Or.inl rfl, by decide, h.2.1.2 rfl, h.2.2.2.2.2.1.2 (by decide),
    h.2.2.2.2.2.2.1.trans (by decide)⟩

/-- C18 (pattern table): in state `on`, for every tune-level L in 0..7 the
pattern written is 0xFF with bit 7 - L cleared, that is 0x7F, 0xBF, 0xDF, 0xEF,
0xF7, 0xFB, 0xFD, 0xFE for L = 0..7; exactly one position is lit, levels that
differ give patterns that differ, and for a tune-level above 7 the pattern is
left as it was. -/
theorem C18_pattern_table (g : Globals) :
    (∀ L, L ≤ 7 →
      (TuneSM { g with state2 := tuneStates.on, tuneFlag := L }).tmpC = 255 - 2 ^ (7 - L))
    ∧ (∀ L, L ≤ 7 →
      lit (TuneSM { g with state2 := tuneStates.on, tuneFlag := L }).tmpC = [7 - L])
    ∧ (List.range 8).map (fun L =>
        (TuneSM { g with state2 := tuneStates.on, tuneFlag := L }).tmpC)
        = [0x7F, 0xBF, 0xDF, 0xEF, 0xF7, 0xFB, 0xFD, 0xFE]
    ∧ (∀ L K, L ≤ 7 → K ≤ 7 →
      (TuneSM { g with state2 := tuneStates.on, tuneFlag := L }).tmpC
        = (TuneSM { g with state2 := tuneStates.on, tuneFlag := K }).tmpC → L = K)
    ∧ (∀ L, 7 < L →
      (TuneSM { g with state2 := tuneStates.on, tuneFlag := L }).tmpC = g.tmpC) := by
  refine ⟨fun L h => ?_, fun L h => ?_, ?_, fun L K hL hK e => ?_, fun L h => ?_⟩
  · rw [on_tmpC, if_pos h, levelMask_eq L h]
  · rw [on_tmpC, if_pos h, lit_levelMask L h]
  · simp only [on_tmpC]
    rfl
  · rw [on_tmpC, on_tmpC, if_pos hL, if_pos hK] at e
    interval_cases L <;> interval_cases K <;> first | rfl | exact absurd e (by decide)
  · rw [on_tmpC, if_neg (by omega)]

/-! ## Control loop: lemmas -/

theorem burst_clear (cl : List Poll) (rest : List Poll) (s : Control)
    (hc : s.cnt < 50) (hf : s.TimerFlag = 0) :
    ∃ s1, burst (cl.map (fun p => { p with raised := false }) ++ rest) s = burst rest s1
      ∧ s1.cnt = s.cnt ∧ s1.TimerFlag = 0
      ∧ frames s1 = frames s + cl.length ∧ evals s1 = evals s := by
  induction cl generalizing s with
  | nil => exact ⟨s, rfl, rfl, hf, rfl, rfl⟩
  | cons p cl ih =>
    obtain ⟨s1, h1, h2, h3, h4, h5⟩ := ih (framePass p s) hc hf
    refine ⟨s1, ?_, h2, h3, ?_, ?_⟩
    · simp only [List.map_cons, List.cons_append, burst, hc, if_true, hf]
      exact h1
    · rw [h4]
      simp [frames, framePass, List.countP_append, Act.isFrame]
      omega
    · rw [h5]
      simp [evals, framePass, List.countP_append, Act.isEval]

theorem burst_raised (p : Poll) (rest : List Poll) (s : Control) (hc : s.cnt < 50) :
    ∃ s1, burst ({ p with raised := true } :: rest) s = burst rest s1
      ∧ s1.cnt = s.cnt + 1 ∧ s1.TimerFlag = 0
      ∧ frames s1 = frames s ∧ evals s1 = evals s + 1 := by
  refine ⟨evalPass { p with raised := true } { s with TimerFlag := 1 }, ?_, ?_, ?_, ?_, ?_⟩
  · simp [burst, hc]
  · simp only [evalPass, takeSample]
    show (s.cnt + 1) % 256 = s.cnt + 1
    omega
  · simp [evalPass, takeSample]
  · simp [frames, evalPass, takeSample, List.countP_append, Act.isFrame]
  · simp [evals, evalPass, takeSample, List.countP_append, Act.isEval]

theorem burst_rounds (rounds : List (List Poll × Poll)) (rest : List Poll) (s : Control)
    (hc : s.cnt + rounds.length ≤ 50) (hf : s.TimerFlag = 0) :
    ∃ s1, burst (timing rounds ++ rest) s = burst rest s1
      ∧ s1.cnt = s.cnt + rounds.length ∧ s1.TimerFlag = 0
      ∧ frames s1 = frames s + waits rounds ∧ evals s1 = evals s + rounds.length := by
  induction rounds generalizing s with
  | nil => exact ⟨s, rfl, rfl, hf, rfl, rfl⟩
  | cons r rs ih =>
    simp only [List.length_cons] at hc
    obtain ⟨a, a1, a2, a3, a4, a5⟩ :=
      burst_clear r.1 ({ r.2 with raised := true } :: (timing rs ++ rest)) s (by omega) hf
    obtain ⟨b, b1, b2, b3, b4, b5⟩ :=
      burst_raised r.2 (timing rs ++ rest) a (by omega)
    obtain ⟨c, c1, c2, c3, c4, c5⟩ := ih b (by omega) b3
    refine ⟨c, ?_, ?_, c3, ?_, ?_⟩
    · show burst (roundPolls r ++ timing rs ++ rest) s = burst rest c
      rw [roundPolls, List.append_assoc, List.append_assoc]
      exact a1.trans (b1.trans c1)
    · simp only [List.length_cons]
      omega
    · simp only [waits]
      omega
    · simp only [List.length_cons]
      omega

theorem burst_done (ps : List Poll) (s : Control) (h : ¬ s.cnt < 50) : burst ps s = s := by
  cases ps with
  | nil => rfl
  | cons p ps => simp [burst, h]

/-- A burst over fifty passes of the outer loop, whatever follows: it ends with
`cnt = 50` after fifty evaluations and one frame per test that found the flag
clear. -/
theorem burst_fifty (rounds : List (List Poll × Poll)) (rest : List Poll) (s : Control)
    (h : rounds.length = 50) :
    (burst (timing rounds ++ rest) s.enter).cnt = 50
      ∧ evals (burst (timing rounds ++ rest) s.enter) = 50
      ∧ frames (burst (timing rounds ++ rest) s.enter) = waits rounds := by
  obtain ⟨s1, h1, h2, _, h4, h5⟩ :=
    burst_rounds rounds rest s.enter (by simp [Control.enter, h]) rfl
  have hcnt : s1.cnt = 50 := by
    rw [h2, h]
    rfl
  rw [h1, burst_done rest s1 (by omega)]
  refine ⟨hcnt, ?_, ?_⟩
  · rw [h5, h]
    rfl
  · rw [h4]
    simp [frames, Control.enter]

theorem waits_replicate (n : Nat) (r : List Poll × Poll) :
    waits (List.replicate n r) = n * r.1.length := by
  induction n with
  | zero => simp [waits]
  | succ n ih =>
    simp only [List.replicate_succ, waits, ih]
    rw [Nat.succ_mul]
    omega

/-! ## Control loop: claims -/

/-- C16, as the spec states it, fails: when each of the fifty tests of the flag
finds it raised, the burst makes fifty `TuneSM` evaluations and sends no frame
at all; when each raise is found at the third test, the burst sends one hundred
frames. -/
theorem C16_frames_are_not_one_per_raise :
    (frames (burst (timing (List.replicate 50 ([], quietPoll))) burstStart.enter) = 0
      ∧ evals (burst (timing (List.replicate 50 ([], quietPoll))) burstStart.enter) = 50)
    ∧ (frames (burst (timing (List.replicate 50 ([quietPoll, quietPoll], quietPoll)))
          burstStart.enter) = 100
      ∧ evals (burst (timing (List.replicate 50 ([quietPoll, quietPoll], quietPoll)))
          burstStart.enter) = 50) := by
  have a := burst_fifty (List.replicate 50 ([], quietPoll)) [] burstStart (by simp)
  have b := burst_fifty (List.replicate 50 ([quietPoll, quietPoll], quietPoll)) []
    burstStart (by simp)
  rw [List.append_nil] at a b
  rw [waits_replicate] at a b
  exact ⟨⟨a.2.2, a.2.1⟩, ⟨b.2.2, b.2.1⟩⟩

/-- C16 (amended): in one animation burst, for every timing of the flag-raises,
the outer loop makes exactly fifty passes, one per test of `TimerFlag` that
finds it raised, each ending in one `TuneSM` evaluation, and then stops with
`cnt = 50` whatever polls follow; after fewer than fifty raises it has not
stopped. A gradient frame is built and sent at every test that finds the flag
clear, so the number of frames of the burst is the number of such tests. -/
theorem C16_fifty_evaluations_per_burst (rounds : List (List Poll × Poll))
    (rest : List Poll) (s : Control) (h : rounds.length = 50) :
    (burst (timing rounds ++ rest) s.enter).cnt = 50
    ∧ evals (burst (timing rounds ++ rest) s.enter) = 50
    ∧ frames (burst (timing rounds ++ rest) s.enter) = waits rounds
    ∧ (∀ n, n < 50 →
        (burst (timing (rounds.take n)) s.enter).cnt = n
        ∧ evals (burst (timing (rounds.take n)) s.enter) = n
        ∧ frames (burst (timing (rounds.take n)) s.enter) = waits (rounds.take n)) := by
  obtain ⟨h1, h2, h3⟩ := burst_fifty rounds rest s h
  refine ⟨h1, h2, h3, fun n hn => ?_⟩
  have hlen : (rounds.take n).length = n := by
    rw [List.length_take, h]
    omega
  obtain ⟨s1, e1, e2, _, e4, e5⟩ :=
    burst_rounds (rounds.take n) [] s.enter (by rw [hlen]; simp [Control.enter]; omega) rfl
  rw [List.append_nil] at e1
  rw [e1]
  show s1.cnt = n ∧ evals s1 = n ∧ frames s1 = waits (rounds.take n)
  rw [e2, e4, e5, hlen]
  simp [Control.enter, frames, evals]

/-- C16 (amended) at a timing that finds each raise at the second test. -/
theorem C16_fifty_evaluations_per_burst_witness :
    (List.replicate 50 ([quietPoll], quietPoll)).length = 50
    ∧ (burst (timing (List.replicate 50 ([quietPoll], quietPoll)) ++ []) burstStart.enter).cnt
        = 50
    ∧ evals (burst (timing (List.replicate 50 ([quietPoll], quietPoll)) ++ [])
        burstStart.enter) = 50
    ∧ frames (burst (timing (List.replicate 50 ([quietPoll], quietPoll)) ++ [])
        burstStart.enter) = waits (List.replicate 50 ([quietPoll], quietPoll)) :=
  have h := C16_fifty_evaluations_per_burst (List.replicate 50 ([quietPoll], quietPoll)) []
    burstStart (by simp)
  ⟨by simp, h.1, h.2.1, h.2.2.1⟩

/-! ## Control loop: the gradient frame -/

theorem fillGradient_length (time n : Nat) (cs : List rgb_color) :
    (fillGradient time n cs).length = cs.length := by
  induction n with
  | zero => rfl
  | succ n ih => simp [fillGradient, ih]

theorem fillGradient_get (time n : Nat) (cs : List rgb_color) (hn : n ≤ cs.length)
    (i : Nat) (hi : i < n) : (fillGradient time n cs)[i]? = some (pixel time i) := by
  induction n with
  | zero => omega
  | succ n ih =>
    simp only [fillGradient]
    by_cases e : i = n
    · subst e
      rw [List.getElem?_set_self (by rw [fillGradient_length]; omega)]
    · rw [List.getElem?_set_ne (fun h => e h.symm)]
      exact ih (by omega) (by omega)

theorem pixel_red (time i : Nat) (ht : time < 65536) :
    (((pixel time i).red : Nat) : Int) = (((time / 4 : Nat) : Int) - 8 * (i : Int)) % 256 := by
  have e : time % 65536 = time := Nat.mod_eq_of_lt ht
  simp only [pixel, e]
  omega

theorem pixel_shape (time i : Nat) :
    (pixel time i).blue = (pixel time i).red
      ∧ (pixel time i).red + (pixel time i).green = 255
      ∧ (pixel time i).red < 256 := by
  dsimp only [pixel]
  omega

theorem pixel_period (time i : Nat) : pixel time (i + 32) = pixel time i := by
  have e : (time % 65536 / 4 + 65536 - 8 * (i + 32) % 65536) % 65536 % 256
      = (time % 65536 / 4 + 65536 - 8 * i % 65536) % 65536 % 256 := by
    omega
  simp only [pixel, e]

/-- C20 (gradient frame): for every 16-bit `time`, every colors array of
`LED_COUNT` entries and every index i in 0..59, the animation loop leaves
`colors[i] = (x, 255 - x, x)` with `x = ((time >> 2) - 8 * i) mod 256`; so red
equals blue, red plus green is 255, and `colors[i + 32] = colors[i]` for every
i in 0..27. -/
theorem C20_gradient_frame (time i : Nat) (cs : List rgb_color)
    (ht : time < 65536) (hi : i < 60) (hc : cs.length = LED_COUNT) :
    (fillGradient time LED_COUNT cs)[i]? = some (pixel time i)
    ∧ (((pixel time i).red : Nat) : Int) = (((time / 4 : Nat) : Int) - 8 * (i : Int)) % 256
    ∧ (pixel time i).green = 255 - (pixel time i).red
    ∧ (pixel time i).blue = (pixel time i).red
    ∧ (pixel time i).red + (pixel time i).green = 255
    ∧ (i < 28 → (fillGradient time LED_COUNT cs)[i + 32]? = (fillGradient time LED_COUNT cs)[i]?)
    ∧ (fillGradient time LED_COUNT cs).length = LED_COUNT := by
  have hg := fillGradient_get time LED_COUNT cs (by rw [hc])
  obtain ⟨s1, s2, _⟩ := pixel_shape time i
  refine ⟨hg i hi, pixel_red time i ht, rfl, s1, s2, fun h => ?_, ?_⟩
  · rw [hg i hi, hg (i + 32) (by simp only [LED_COUNT]; omega), pixel_period]
  · rw [fillGradient_length, hc]

/-- C20 at `time = 1000` and LED 5: x = (250 - 40) mod 256 = 210. -/
theorem C20_gradient_frame_witness :
    (1000 : Nat) < 65536 ∧ (5 : Nat) < 60
    ∧ (List.replicate LED_COUNT (⟨0, 0, 0⟩ : rgb_color)).length = LED_COUNT
    ∧ (fillGradient 1000 LED_COUNT (List.replicate LED_COUNT ⟨0, 0, 0⟩))[5]?
        = some ⟨210, 45, 210⟩
    ∧ (fillGradient 1000 LED_COUNT (List.replicate LED_COUNT ⟨0, 0, 0⟩))[5 + 32]?
        = (fillGradient 1000 LED_COUNT (List.replicate LED_COUNT ⟨0, 0, 0⟩))[5]? :=
  have h := C20_gradient_frame 1000 5 (List.replicate LED_COUNT ⟨0, 0, 0⟩)
    (by decide) (by decide) (by simp)
  ⟨by decide, by decide, by simp, h.1.trans (by decide), h.2.2.2.2.2.1 (by decide)⟩

end LedStrip

